import Mathlib

/-!
# ConsoleRayMarching: a shallow embedding of `src/RayMarching/main.cpp`

The program's `double` values are modelled as elements of a linearly ordered field `F`
together with a square-root function `sqrt : F → F` that is passed explicitly to every
operation that (transitively) calls `sqrt`.  All definitions are executable for a
computable field such as `ℚ`; the theorems instantiate `F := ℝ` and `sqrt := Real.sqrt`.

Rounding, overflow and underflow of `double` are outside this model: arithmetic is exact.
A division by zero yields `0` in a field, where IEEE arithmetic yields an infinity and
then NaN; so `Vec3.normalize` and `Camera.getLight` describe the source wherever their
divisors are non-zero, and the variants `Vec3.normalizeOpt`, `Camera.getLightOpt` and
`Camera.marchOpt` track the NaN that the source computes at a zero divisor.

The library functions `cos`, `sin`, `tan` and `atan2` are passed explicitly in the same
way; the theorems instantiate them with `Real.cos`, `Real.sin`, `Real.tan` and, for
`atan2(y, x)`, the argument of the complex number `x + iy`.  The `ceil` of `getChar` is the
ceiling of a `FloorRing`.  Values of type `int` are integers; the product
`(width + 1) * height` of the constructor is reduced to 32 bits by `wrapInt32`.

The `min`/`max` used by the source are the `<windows.h>` macros
`((a) < (b) ? (a) : (b))` and `((a) > (b) ? (a) : (b))`; on a linear order they agree
with `min` and `max`.
-/

namespace RayMarching

/-- The class `Vec3` (main.cpp:13-66): three `double` components. -/
@[ext]
structure Vec3 (F : Type) where
  x : F
  y : F
  z : F
deriving DecidableEq

variable {F : Type} [LinearOrderedField F]

namespace Vec3

/-- The default constructor `Vec3()` (main.cpp:19-21). -/
def zero : Vec3 F := ⟨0, 0, 0⟩

/-- The `operator+` of main.cpp:29-34. -/
def add (v a : Vec3 F) : Vec3 F := ⟨v.x + a.x, v.y + a.y, v.z + a.z⟩

/-- The binary `operator-` of main.cpp:36-41. -/
def sub (v a : Vec3 F) : Vec3 F := ⟨v.x - a.x, v.y - a.y, v.z - a.z⟩

/-- The unary `operator-` of main.cpp:43-45. -/
def neg (v : Vec3 F) : Vec3 F := ⟨-v.x, -v.y, -v.z⟩

/-- The `operator*(double s)` of main.cpp:47-49. -/
def scale (v : Vec3 F) (s : F) : Vec3 F := ⟨v.x * s, v.y * s, v.z * s⟩

/-- The `operator*(Vec3& a)` of main.cpp:51-53: the dot product. -/
def dot (v a : Vec3 F) : F := v.x * a.x + v.y * a.y + v.z * a.z

/-- The method `len` of main.cpp:55-57. -/
def len (sqrt : F → F) (v : Vec3 F) : F := sqrt (v.x * v.x + v.y * v.y + v.z * v.z)

/-- The method `normalize` of main.cpp:59-65 (the updated vector is returned), for a vector
of non-zero length.  At length `0` the source computes `k = inf` and NaN components, which
`Vec3.normalizeOpt` tracks; the value of this definition there is not the source's. -/
def normalize (sqrt : F → F) (v : Vec3 F) : Vec3 F :=
  let k := 1 / v.len sqrt
  ⟨v.x * k, v.y * k, v.z * k⟩

instance : Add (Vec3 F) := ⟨add⟩
instance : Sub (Vec3 F) := ⟨sub⟩
instance : Neg (Vec3 F) := ⟨neg⟩

end Vec3

/-- The function `sign` of main.cpp:68. -/
def sign (x : F) : F := if x < 0 then -1 else 1

/-- The enum `ShapeType` of main.cpp:83-86. -/
inductive ShapeType where
  | Circle
  | Rect
deriving DecidableEq

/-- The class `Shape` (main.cpp:88-159): one record with a type tag and the fields of both
kinds of shape. -/
structure Shape (F : Type) where
  reversed : Bool
  type : ShapeType
  position : Vec3 F
  radius : F
  w : F
  h : F
  d : F

namespace Shape

/-- The factory `Shape::circle` of main.cpp:96-102.  The source leaves `w`, `h`, `d`
uninitialised (they are never read for a `Circle`); they are `0` here. -/
def circle (position : Vec3 F) (radius : F) : Shape F :=
  { reversed := false, type := ShapeType.Circle, position := position, radius := radius,
    w := 0, h := 0, d := 0 }

/-- The factory `Shape::rect` of main.cpp:104-112.  The source leaves `radius`
uninitialised (it is never read for a `Rect`); it is `0` here. -/
def rect (position : Vec3 F) (w h d : F) : Shape F :=
  { reversed := false, type := ShapeType.Rect, position := position, radius := 0,
    w := w, h := h, d := d }

/-- The method `reverse` of main.cpp:114-117. -/
def reverse (s : Shape F) : Shape F := { s with reversed := !s.reversed }

/-- The method `getDistReal` of main.cpp:127-134. -/
def getDistReal (sqrt : F → F) (s : Shape F) (point : Vec3 F) : F :=
  match s.type with
  | ShapeType.Circle => (point - s.position).len sqrt - s.radius
  | ShapeType.Rect =>
    max (|s.position.x - point.x| - s.w * 0.5)
      (max (|s.position.y - point.y| - s.h * 0.5) (|s.position.z - point.z| - s.d * 0.5))

/-- The method `getNormalReal` of main.cpp:136-158.  The mutable pair `(normal, md)` of the
`Rect` branch is threaded through the three `if` statements. -/
def getNormalReal (sqrt : F → F) (s : Shape F) (point : Vec3 F) : Vec3 F :=
  match s.type with
  | ShapeType.Circle => (point - s.position).normalize sqrt
  | ShapeType.Rect =>
    let st0 : Vec3 F × F := (Vec3.zero, 1000000)
    let st1 : Vec3 F × F :=
      if |(|s.position.x - point.x| - s.w * 0.5)| < st0.2 then
        (⟨-sign (s.position.x - point.x), 0, 0⟩, |(|s.position.x - point.x| - s.w * 0.5)|)
      else st0
    let st2 : Vec3 F × F :=
      if |(|s.position.y - point.y| - s.h * 0.5)| < st1.2 then
        (⟨0, -sign (s.position.y - point.y), 0⟩, |(|s.position.y - point.y| - s.h * 0.5)|)
      else st1
    let st3 : Vec3 F × F :=
      if |(|s.position.z - point.z| - s.d * 0.5)| < st2.2 then
        (⟨0, 0, -sign (s.position.z - point.z)⟩, |(|s.position.z - point.z| - s.d * 0.5)|)
      else st2
    st3.1

/-- The method `getDist` of main.cpp:119-121. -/
def getDist (sqrt : F → F) (s : Shape F) (point : Vec3 F) : F :=
  if s.reversed then -s.getDistReal sqrt point else s.getDistReal sqrt point

/-- The method `getNormal` of main.cpp:123-125. -/
def getNormal (sqrt : F → F) (s : Shape F) (point : Vec3 F) : Vec3 F :=
  if s.reversed then -s.getNormalReal sqrt point else s.getNormalReal sqrt point

end Shape

/-- The class `Collection` (main.cpp:161-192): the scene, an ordered vector of shapes. -/
structure Collection (F : Type) where
  shapes : List (Shape F)

namespace Collection

/-- The method `getDist` of main.cpp:172-178: a left fold of `min` from `1000000`. -/
def getDist (sqrt : F → F) (c : Collection F) (point : Vec3 F) : F :=
  c.shapes.foldl (fun dist shape => min dist (shape.getDist sqrt point)) 1000000

/-- One iteration of the loop of `Collection::getNormal` (main.cpp:183-189) on the state
`(normal, dist)`. -/
def getNormalStep (sqrt : F → F) (point : Vec3 F) (st : Vec3 F × F) (shape : Shape F) :
    Vec3 F × F :=
  let shapeDist := shape.getDist sqrt point
  if shapeDist < st.2 then (shape.getNormal sqrt point, shapeDist) else st

/-- The method `getNormal` of main.cpp:180-191. -/
def getNormal (sqrt : F → F) (c : Collection F) (point : Vec3 F) : Vec3 F :=
  (c.shapes.foldl (getNormalStep sqrt point) (Vec3.zero, 1000000)).1

end Collection

/-- The class `Camera` (main.cpp:194-320).  Its character buffer is not a field here: the
characters stored into it are the value of `Camera.render`. -/
structure Camera (F : Type) where
  width : Int
  height : Int
  position : Vec3 F
  angle : Vec3 F
  light : Vec3 F
  minDist : F
  fogDist : F
  maxViewDist : F

namespace Camera

/-- The constructor `Camera(width, height)` of main.cpp:207 with the member defaults of
main.cpp:199-205. -/
def new (width height : Int) : Camera F :=
  { width := width, height := height, position := Vec3.zero, angle := Vec3.zero,
    light := Vec3.zero, minDist := 3, fogDist := 100, maxViewDist := 500 }

/-- The loop of `Camera::march` (main.cpp:241-251).  The first argument of type `Nat` is
the number of iterations left; `onHit pos` is the value returned at line 246 when the hit
test `dist < 0.01` succeeds at `pos`. -/
def marchLoop (sqrt : F → F) (onHit : Vec3 F → F) (dir : Vec3 F) (shapes : Collection F)
    (maxDist : F) : Nat → Vec3 F → F → F
  | 0, _, _ => 0
  | n + 1, pos, sumDist =>
    let dist := shapes.getDist sqrt pos
    let sumDist := sumDist + dist
    if sumDist > maxDist then 0
    else if dist > maxDist then 0
    else if dist < 0.01 then onHit pos
    else marchLoop sqrt onHit dir shapes maxDist n (pos + dir.scale dist) sumDist

/-- The method `getLight` of main.cpp:220-237.  Its call `march(..., dist, false)` is the
loop of `march` returning `1` on a hit.  It describes the source wherever `dist` and the
length normalised by `getNormal` are non-zero; `Camera.getLightOpt` tracks the NaN that the
source computes otherwise. -/
def getLight (sqrt : F → F) (cam : Camera F) (point : Vec3 F) (shapes : Collection F) : F :=
  let delta := cam.light - point
  let normal := shapes.getNormal sqrt point
  let dist := delta.len sqrt
  let distReversed := 1 / dist
  let dir := delta.scale distReversed
  let dot := normal.dot dir
  let val := (dot + 1) * 0.5
  let val := if dist > cam.fogDist then
      val - (dist - cam.fogDist) / (cam.maxViewDist - cam.fogDist) else val
  let val := val * ((if dot > 0 then
      1 - marchLoop sqrt (fun _ => 1) dir shapes dist 100 (point + normal.scale 0.01) 0
    else 0) * 0.6 + 0.4)
  max 0 val

/-- The method `march` of main.cpp:239-252. -/
def march (sqrt : F → F) (cam : Camera F) (pos dir : Vec3 F) (shapes : Collection F)
    (maxDist : F) (light : Bool) : F :=
  marchLoop sqrt (fun p => if light then cam.getLight sqrt p shapes else 1) dir shapes
    maxDist 100 pos 0

end Camera

/-! ## Divisions by zero tracked

The same methods with the IEEE result of a division by zero followed through: `none`
stands for NaN.  With the exact square root a length is `0` only for the zero vector, so
the quotient `1 / len` is infinite exactly when every component it multiplies is `0`, and
`0 * inf` is NaN. -/

/-- The method `normalize` of main.cpp:59-65.  When `len()` is `0` the vector is zero,
`k = 1 / len()` is infinite and each component `0 * k` is NaN: `none`. -/
def Vec3.normalizeOpt (sqrt : F → F) (v : Vec3 F) : Option (Vec3 F) :=
  if v.len sqrt = 0 then none
  else
    let k := 1 / v.len sqrt
    some ⟨v.x * k, v.y * k, v.z * k⟩

/-- The method `getNormalReal` of main.cpp:136-158; only its `Circle` branch divides. -/
def Shape.getNormalRealOpt (sqrt : F → F) (s : Shape F) (point : Vec3 F) :
    Option (Vec3 F) :=
  match s.type with
  | ShapeType.Circle => (point - s.position).normalizeOpt sqrt
  | ShapeType.Rect => some (s.getNormalReal sqrt point)

/-- The method `getNormal` of main.cpp:123-125; the negation of NaN is NaN. -/
def Shape.getNormalOpt (sqrt : F → F) (s : Shape F) (point : Vec3 F) : Option (Vec3 F) :=
  if s.reversed then (s.getNormalRealOpt sqrt point).map (fun n => -n)
  else s.getNormalRealOpt sqrt point

/-- One iteration of the loop of `Collection::getNormal` (main.cpp:183-189) on the state
`(normal, dist)`; the distances involve no division. -/
def Collection.getNormalStepOpt (sqrt : F → F) (point : Vec3 F) (st : Option (Vec3 F) × F)
    (shape : Shape F) : Option (Vec3 F) × F :=
  let shapeDist := shape.getDist sqrt point
  if shapeDist < st.2 then (shape.getNormalOpt sqrt point, shapeDist) else st

/-- The method `getNormal` of main.cpp:180-191: the normal assigned last, NaN or not. -/
def Collection.getNormalOpt (sqrt : F → F) (c : Collection F) (point : Vec3 F) :
    Option (Vec3 F) :=
  (c.shapes.foldl (Collection.getNormalStepOpt sqrt point) (some Vec3.zero, 1000000)).1

namespace Camera

/-- The loop of `Camera::march` (main.cpp:241-251) as in `marchLoop`, with a value `onHit`
that may be NaN; a miss returns the number `0`. -/
def marchLoopOpt (sqrt : F → F) (onHit : Vec3 F → Option F) (dir : Vec3 F)
    (shapes : Collection F) (maxDist : F) : Nat → Vec3 F → F → Option F
  | 0, _, _ => some 0
  | n + 1, pos, sumDist =>
    let dist := shapes.getDist sqrt pos
    let sumDist := sumDist + dist
    if sumDist > maxDist then some 0
    else if dist > maxDist then some 0
    else if dist < 0.01 then onHit pos
    else marchLoopOpt sqrt onHit dir shapes maxDist n (pos + dir.scale dist) sumDist

/-- The method `getLight` of main.cpp:220-237.  A NaN `normal` makes `dot`, `val` and the
result NaN.  When `dist` is `0`, `delta` is zero, `distReversed` is infinite, `dir` and
`dot` are NaN, and so are `val` and the result, because `0 > NaN` is false in the `max`
macro.  When the fog test passes with `maxViewDist = fogDist`, the quotient is `+inf`,
`val` is `-inf` and the result is `0`. -/
def getLightOpt (sqrt : F → F) (cam : Camera F) (point : Vec3 F) (shapes : Collection F) :
    Option F :=
  let delta := cam.light - point
  match shapes.getNormalOpt sqrt point with
  | none => none
  | some normal =>
    let dist := delta.len sqrt
    if dist = 0 then none
    else
      let distReversed := 1 / dist
      let dir := delta.scale distReversed
      let dot := normal.dot dir
      let val := (dot + 1) * 0.5
      if dist > cam.fogDist ∧ cam.maxViewDist - cam.fogDist = 0 then some 0
      else
        let val := if dist > cam.fogDist then
            val - (dist - cam.fogDist) / (cam.maxViewDist - cam.fogDist) else val
        let val := val * ((if dot > 0 then
            1 - marchLoop sqrt (fun _ => 1) dir shapes dist 100 (point + normal.scale 0.01) 0
          else 0) * 0.6 + 0.4)
        some (max 0 val)

/-- The method `march` of main.cpp:239-252; its value is NaN only when `getLight` is. -/
def marchOpt (sqrt : F → F) (cam : Camera F) (pos dir : Vec3 F) (shapes : Collection F)
    (maxDist : F) (light : Bool) : Option F :=
  marchLoopOpt sqrt (fun p => if light then cam.getLightOpt sqrt p shapes else some 1) dir
    shapes maxDist 100 pos 0

end Camera

/-- The 32-bit two's-complement reduction of an integer: the value that an `int`
computation with the exact result `n` ends with when it wraps around. -/
def wrapInt32 (n : Int) : Int := (n + 2147483648) % 4294967296 - 2147483648

/-- The string `palette` of main.cpp:72. -/
def palette : String := " `.',:^\"-~=*+o]#8CUOD%0&$@"

/-- The constant `paletteSize` of main.cpp:73, `strlen(palette)`. -/
def paletteSize : Nat := palette.length

/-- The index `int(ceil(light * (paletteSize - 1)))` computed by `getChar` (main.cpp:76).
The subtraction is done on `size_t` before the conversion to `double`. -/
def getCharIndex [FloorRing F] (light : F) : Int :=
  ⌈light * (((paletteSize - 1 : Nat) : F))⌉

/-- The function `getChar` of main.cpp:75-77.  The array behind `palette` holds the
characters of the string followed by the terminating NUL; `none` stands for a read outside
that array, whose result the language leaves undefined. -/
def getChar [FloorRing F] (light : F) : Option Char :=
  if 0 ≤ getCharIndex light then
    (palette.toList ++ [Char.ofNat 0])[(getCharIndex light).toNat]?
  else none

namespace Camera

/-- The local `dot` of `Camera::getLight` (main.cpp:221-227): the value compared with `0`
by the facing test. -/
def getLightDot (sqrt : F → F) (cam : Camera F) (point : Vec3 F) (shapes : Collection F) :
    F :=
  (shapes.getNormal sqrt point).dot
    ((cam.light - point).scale (1 / (cam.light - point).len sqrt))

/-- The local `val` of `Camera::getLight` after the fog test (main.cpp:228-232), before it
is scaled at line 234. -/
def getLightVal (sqrt : F → F) (cam : Camera F) (point : Vec3 F) (shapes : Collection F) :
    F :=
  if (cam.light - point).len sqrt > cam.fogDist then
    (getLightDot sqrt cam point shapes + 1) * 0.5
      - ((cam.light - point).len sqrt - cam.fogDist) / (cam.maxViewDist - cam.fogDist)
  else (getLightDot sqrt cam point shapes + 1) * 0.5

/-- The value `(width + 1) * height` computed in `int` by the constructor (main.cpp:207):
it initialises the member `bufferSize` and is the number of characters allocated for
`buffer`. -/
def bufferSize (cam : Camera F) : Int := wrapInt32 (wrapInt32 (cam.width + 1) * cam.height)

/-- The method `lookAt` of main.cpp:213-218; it assigns `angle.x` and `angle.y`. -/
def lookAt (cos sin : F → F) (atan2 : F → F → F) (cam : Camera F) (point : Vec3 F) :
    Camera F :=
  let delta := cam.position - point
  let ax := -atan2 delta.x (-delta.z)
  let nz := delta.x * sin ax + delta.z * cos ax
  let ay := atan2 (-delta.y) (-nz)
  { cam with angle := ⟨ax, ay, cam.angle.z⟩ }

/-- The three sequential rotations of `Camera::render` (main.cpp:292-306) applied to
`dir`, with the coefficients `cx`, `sx`, `cy`, `sy`, `cz`, `sz` of main.cpp:259-266. -/
def rotateDir (cx sx cy sy cz sz : F) (dir : Vec3 F) : Vec3 F :=
  let ox := dir.x
  let oy := dir.y
  let oz := dir.z
  let dirx := ox * cz - oy * sz
  let diry := oy * cz + ox * sz
  let ox := dirx
  let oy := diry
  let diry := oy * cy - oz * sy
  let dirz := oz * cy + oy * sy
  let oz := dirz
  let dirx := ox * cx - oz * sx
  let dirz := oz * cx + ox * sx
  ⟨dirx, diry, dirz⟩

/-- The rotation of `Camera::render` with the coefficients it computes from the camera's
angles: `cx = cos(-angle.x)`, `sx = sin(-angle.x)` and so on (main.cpp:259-266). -/
def rotate (cos sin : F → F) (cam : Camera F) (dir : Vec3 F) : Vec3 F :=
  rotateDir (cos (-cam.angle.x)) (sin (-cam.angle.x)) (cos (-cam.angle.y))
    (sin (-cam.angle.y)) (cos (-cam.angle.z)) (sin (-cam.angle.z)) dir

/-- The ray direction computed by `Camera::render` for the pixel `(x, y)`
(main.cpp:256-266 and 286-306): the normalised device-space direction `(rx, ry, 1)`,
rotated. -/
def rayDir (sqrt cos sin tan : F → F) (cam : Camera F) (fovX fovY : F) (x y : Int) :
    Vec3 F :=
  let kx := tan (fovX / 2)
  let ky := tan (fovY / 2)
  let rx := ((x : F) / ((cam.width - 1 : Int) : F) - 0.5) * kx
  let ry := ((y : F) / ((cam.height - 1 : Int) : F) - 0.5) * ky
  rotate cos sin cam ((⟨rx, ry, 1⟩ : Vec3 F).normalize sqrt)

/-- The character stored by the body of the inner loop of `Camera::render`
(main.cpp:272-310) for the pixel `(x, y)`; `none` is an undefined read of `getChar` or the
character obtained from a NaN brightness. -/
def renderCell [FloorRing F] (sqrt cos sin tan : F → F) (cam : Camera F)
    (shapes : Collection F) (fovX fovY : F) (x y : Int) : Option Char :=
  if x = 0 ∨ x = cam.width - 1 then some '|'
  else if y = 0 ∨ y = cam.height - 1 then some '-'
  else if (x = Int.tdiv cam.width 2 ∧ |y - Int.tdiv cam.height 2| ≤ 2) ∨
      (y = Int.tdiv cam.height 2 ∧ |x - Int.tdiv cam.width 2| ≤ 2) then some '#'
  else
    (cam.marchOpt sqrt
      (cam.position + (rayDir sqrt cos sin tan cam fovX fovY x y).scale cam.minDist)
      (rayDir sqrt cos sin tan cam fovX fovY x y) shapes cam.maxViewDist true).bind getChar

/-- The stores `buffer[i++] = ...` executed by `Camera::render` (main.cpp:268-313), in
order: the store number `k` (from `0`) is made at the index `i = k`. -/
def renderStores [FloorRing F] (sqrt cos sin tan : F → F) (cam : Camera F)
    (shapes : Collection F) (fovX fovY : F) : List (Option Char) :=
  (List.range cam.height.toNat).flatMap (fun (y : Nat) =>
    (List.range cam.width.toNat).map
      (fun (x : Nat) => renderCell sqrt cos sin tan cam shapes fovX fovY (x : Int) (y : Int))
    ++ [some (Char.ofNat 10)])

/-- The method `render` of main.cpp:254-315.  The buffer has `bufferSize` characters; when
every store falls inside it the result is the characters stored, and `none` when a store
falls outside the buffer, which the language leaves undefined. -/
def render [FloorRing F] (sqrt cos sin tan : F → F) (cam : Camera F)
    (shapes : Collection F) (fovX fovY : F) : Option (List (Option Char)) :=
  if ((renderStores sqrt cos sin tan cam shapes fovX fovY).length : Int) ≤ cam.bufferSize
  then some (renderStores sqrt cos sin tan cam shapes fovX fovY)
  else none

end Camera

/-! ## Notions written from the specification

The notions below are not in the source: they state what the specification calls the
true signed Euclidean distance to a shape's surface, the clamped palette index and the
checked normalisation, for comparison with `getDist`, `getChar` and `normalize`. -/

namespace Spec

/-- The points strictly inside the ball of centre `c` and radius `r`. -/
def sphereInside (c : Vec3 ℝ) (r : ℝ) (q : Vec3 ℝ) : Prop := (q - c).len Real.sqrt < r

/-- The surface of the ball of centre `c` and radius `r`. -/
def sphereSurface (c : Vec3 ℝ) (r : ℝ) (q : Vec3 ℝ) : Prop := (q - c).len Real.sqrt = r

/-- The points strictly inside the axis-aligned box of centre `c` and extents `w`, `h`,
`d`. -/
def boxInside (c : Vec3 ℝ) (w h d : ℝ) (q : Vec3 ℝ) : Prop :=
  |q.x - c.x| < w / 2 ∧ |q.y - c.y| < h / 2 ∧ |q.z - c.z| < d / 2

/-- The closed axis-aligned box of centre `c` and extents `w`, `h`, `d`. -/
def boxSolid (c : Vec3 ℝ) (w h d : ℝ) (q : Vec3 ℝ) : Prop :=
  |q.x - c.x| ≤ w / 2 ∧ |q.y - c.y| ≤ h / 2 ∧ |q.z - c.z| ≤ d / 2

/-- The surface of the box: the points of the closed box that are not strictly inside. -/
def boxSurface (c : Vec3 ℝ) (w h d : ℝ) (q : Vec3 ℝ) : Prop :=
  boxSolid c w h d q ∧ ¬ boxInside c w h d q

/-- The value `v` is the true signed Euclidean distance from `p` to the surface of a solid:
negative when `p` is strictly inside, positive when `p` is neither inside nor on the
surface, and of magnitude the least Euclidean distance from `p` to a surface point. -/
def IsSignedDist (inside surface : Vec3 ℝ → Prop) (p : Vec3 ℝ) (v : ℝ) : Prop :=
  (inside p → v < 0) ∧ (¬ inside p → ¬ surface p → 0 < v) ∧
    IsLeast {t | ∃ q, surface q ∧ t = (p - q).len Real.sqrt} |v|

/-- The palette index that the specification mandates:
`clamp(ceil(b * (paletteLength - 1)), 0, paletteLength - 1)`. -/
def paletteIndex [FloorRing F] (b : F) : Int :=
  max 0 (min ⌈b * (((paletteSize - 1 : Nat) : F))⌉ ((paletteSize - 1 : Nat) : Int))

/-- The failure that the specification requires of `normalize`. -/
inductive MathError where
  | DivideByZero
deriving DecidableEq

/-- The normalisation that the specification describes: it fails with `DivideByZero` on a
vector of zero length and otherwise yields the vector scaled by the reciprocal of its
length. -/
def normalizeChecked (sqrt : F → F) (v : Vec3 F) : Except MathError (Vec3 F) :=
  if v.len sqrt = 0 then Except.error MathError.DivideByZero
  else Except.ok (v.scale (1 / v.len sqrt))

end Spec

/-! ## Lemmas and theorems -/

section VecLemmas
variable {F : Type} [LinearOrderedField F]

@[simp] theorem Vec3.add_x (a b : Vec3 F) : (a + b).x = a.x + b.x := rfl
@[simp] theorem Vec3.add_y (a b : Vec3 F) : (a + b).y = a.y + b.y := rfl
@[simp] theorem Vec3.add_z (a b : Vec3 F) : (a + b).z = a.z + b.z := rfl
@[simp] theorem Vec3.sub_x (a b : Vec3 F) : (a - b).x = a.x - b.x := rfl
@[simp] theorem Vec3.sub_y (a b : Vec3 F) : (a - b).y = a.y - b.y := rfl
@[simp] theorem Vec3.sub_z (a b : Vec3 F) : (a - b).z = a.z - b.z := rfl
@[simp] theorem Vec3.neg_x (a : Vec3 F) : (-a).x = -a.x := rfl
@[simp] theorem Vec3.neg_y (a : Vec3 F) : (-a).y = -a.y := rfl
@[simp] theorem Vec3.neg_z (a : Vec3 F) : (-a).z = -a.z := rfl
@[simp] theorem Vec3.scale_x (a : Vec3 F) (s : F) : (a.scale s).x = a.x * s := rfl
@[simp] theorem Vec3.scale_y (a : Vec3 F) (s : F) : (a.scale s).y = a.y * s := rfl
@[simp] theorem Vec3.scale_z (a : Vec3 F) (s : F) : (a.scale s).z = a.z * s := rfl
@[simp] theorem Vec3.zero_x : (Vec3.zero : Vec3 F).x = 0 := rfl
@[simp] theorem Vec3.zero_y : (Vec3.zero : Vec3 F).y = 0 := rfl
@[simp] theorem Vec3.zero_z : (Vec3.zero : Vec3 F).z = 0 := rfl

theorem Vec3.neg_neg_eq (a : Vec3 F) : - -a = a := by
  ext <;> simp

/-- The left fold of `Collection::getDist` is below its start value. -/
theorem foldl_min_le_init (f : Shape F → F) (l : List (Shape F)) (d0 : F) :
    l.foldl (fun dist shape => min dist (f shape)) d0 ≤ d0 := by
  induction l generalizing d0 with
  | nil => simp
  | cons a l ih => exact le_trans (ih _) (min_le_left _ _)

/-- The left fold of `Collection::getDist` is below every member's value. -/
theorem foldl_min_le_mem (f : Shape F → F) (l : List (Shape F)) (d0 : F) (s : Shape F)
    (hs : s ∈ l) : l.foldl (fun dist shape => min dist (f shape)) d0 ≤ f s := by
  induction l generalizing d0 with
  | nil => simp at hs
  | cons a l ih =>
    rcases List.mem_cons.mp hs with h | h
    · subst h
      exact le_trans (foldl_min_le_init f l _) (min_le_right _ _)
    · exact ih _ h

/-- The left fold of `Collection::getDist` is its start value or some member's value. -/
theorem foldl_min_eq_or (f : Shape F → F) (l : List (Shape F)) (d0 : F) :
    l.foldl (fun dist shape => min dist (f shape)) d0 = d0 ∨
      ∃ s ∈ l, l.foldl (fun dist shape => min dist (f shape)) d0 = f s := by
  induction l generalizing d0 with
  | nil => simp
  | cons a l ih =>
    rcases ih (min d0 (f a)) with h | ⟨s, hs, h⟩
    · rcases min_choice d0 (f a) with h2 | h2
      · left; simp only [List.foldl_cons]; rw [h, h2]
      · right; exact ⟨a, List.mem_cons_self _ _, by simp only [List.foldl_cons]; rw [h, h2]⟩
    · right; exact ⟨s, List.mem_cons_of_mem _ hs, h⟩

end VecLemmas

/-- C1 (as amended): `Collection::getDist(p)` is the minimum of the start value `1000000`
and the values `s.getDist(p)` of the shapes `s` of the scene. -/
theorem Collection.getDist_isLeast_capped (S : Collection ℝ) (p : Vec3 ℝ) :
    IsLeast (insert (1000000 : ℝ) {d | ∃ s ∈ S.shapes, d = s.getDist Real.sqrt p})
      (S.getDist Real.sqrt p) := by
  constructor
  · rcases foldl_min_eq_or (fun s => s.getDist Real.sqrt p) S.shapes 1000000 with h | ⟨s, hs, h⟩
    · left; exact h
    · right; exact ⟨s, hs, h⟩
  · rintro d (hd | ⟨s, hs, hd⟩)
    · rw [hd]; exact foldl_min_le_init _ _ _
    · rw [hd]; exact foldl_min_le_mem (fun s => s.getDist Real.sqrt p) _ _ s hs

/-- C1 (counterexample): for the scene holding the single box `rect((0,0,0), 2, 2, 2)` and
the point `(2000001, 0, 0)` the scene distance is `1000000`, while the only shape is at
distance `2000000`: the scene distance is not the minimum over the shapes. -/
theorem Collection.getDist_not_min_far :
    (Collection.mk [Shape.rect (⟨0, 0, 0⟩ : Vec3 ℝ) 2 2 2]).shapes ≠ [] ∧
    (Collection.mk [Shape.rect (⟨0, 0, 0⟩ : Vec3 ℝ) 2 2 2]).getDist Real.sqrt ⟨2000001, 0, 0⟩
      = 1000000 ∧
    ∀ s ∈ (Collection.mk [Shape.rect (⟨0, 0, 0⟩ : Vec3 ℝ) 2 2 2]).shapes,
      s.getDist Real.sqrt ⟨2000001, 0, 0⟩ = 2000000 := by
  norm_num [Collection.getDist, Shape.rect, Shape.getDist, Shape.getDistReal]


theorem Vec3.len_sq_of_len_eq_one (u : Vec3 ℝ) (hu : u.len Real.sqrt = 1) :
    u.x * u.x + u.y * u.y + u.z * u.z = 1 := by
  unfold Vec3.len at hu
  exact (Real.sqrt_eq_one).mp hu

/-- The length of `(c + u*r) - c` for a unit vector `u` and `0 ≤ r` is `r`. -/
theorem Vec3.len_add_scale_sub (c u : Vec3 ℝ) (r : ℝ) (hr : 0 ≤ r)
    (hu : u.len Real.sqrt = 1) : (c + u.scale r - c).len Real.sqrt = r := by
  have h1 := Vec3.len_sq_of_len_eq_one u hu
  unfold Vec3.len
  have : (c + u.scale r - c).x * (c + u.scale r - c).x
      + (c + u.scale r - c).y * (c + u.scale r - c).y
      + (c + u.scale r - c).z * (c + u.scale r - c).z = r ^ 2 := by
    simp only [Vec3.add_x, Vec3.add_y, Vec3.add_z, Vec3.sub_x, Vec3.sub_y, Vec3.sub_z,
      Vec3.scale_x, Vec3.scale_y, Vec3.scale_z]
    linear_combination (r ^ 2) * h1
  rw [this, Real.sqrt_sq hr]

/-- C2: for the sphere `Shape::circle(c, r)` with `r > 0` and a unit vector `u`,
`getDist(c) = -r`, `getDist(c + u*r) = 0` and `getNormal(c + u*r) = u`. -/
theorem Shape.circle_centre_and_surface (c u : Vec3 ℝ) (r : ℝ) (hr : 0 < r)
    (hu : u.len Real.sqrt = 1) :
    (Shape.circle c r).getDist Real.sqrt c = -r ∧
    (Shape.circle c r).getDist Real.sqrt (c + u.scale r) = 0 ∧
    (Shape.circle c r).getNormal Real.sqrt (c + u.scale r) = u := by
  have hlen := Vec3.len_add_scale_sub c u r hr.le hu
  refine ⟨?_, ?_, ?_⟩
  · simp [Shape.circle, Shape.getDist, Shape.getDistReal, Vec3.len]
  · simp only [Shape.circle, Shape.getDist, Shape.getDistReal, Bool.false_eq_true, if_false]
    rw [hlen]; ring
  · simp only [Shape.circle, Shape.getNormal, Shape.getNormalReal, Bool.false_eq_true,
      if_false, Vec3.normalize]
    rw [hlen]
    ext <;> simp <;> field_simp

/-- C2 (witness): the unit sphere at the origin and the unit vector `(1, 0, 0)`. -/
theorem Shape.circle_centre_and_surface_witness :
    (0 : ℝ) < 1 ∧ (⟨1, 0, 0⟩ : Vec3 ℝ).len Real.sqrt = 1 ∧
    (Shape.circle (⟨0, 0, 0⟩ : Vec3 ℝ) 1).getDist Real.sqrt ⟨0, 0, 0⟩ = -1 ∧
    (Shape.circle (⟨0, 0, 0⟩ : Vec3 ℝ) 1).getDist Real.sqrt
      ((⟨0, 0, 0⟩ : Vec3 ℝ) + (⟨1, 0, 0⟩ : Vec3 ℝ).scale 1) = 0 ∧
    (Shape.circle (⟨0, 0, 0⟩ : Vec3 ℝ) 1).getNormal Real.sqrt
      ((⟨0, 0, 0⟩ : Vec3 ℝ) + (⟨1, 0, 0⟩ : Vec3 ℝ).scale 1) = ⟨1, 0, 0⟩ :=
  ⟨by norm_num, by simp [Vec3.len],
    Shape.circle_centre_and_surface ⟨0, 0, 0⟩ ⟨1, 0, 0⟩ 1 (by norm_num) (by simp [Vec3.len])⟩

/-- C3: for the box `Shape::rect(center, w, h, d)` and every point `p`, `getDist(p)` is
`max(|center.x-p.x| - w/2, |center.y-p.y| - h/2, |center.z-p.z| - d/2)`; the box at the
origin with half-extents `(1,1,1)` has distance `-1` at the origin and `1` at `(2,0,0)`,
and the box at the origin with extents `2x3x2` has distance `-1` at the origin. -/
theorem Shape.rect_getDist_chebyshev :
    (∀ (center p : Vec3 ℝ) (w h d : ℝ),
      (Shape.rect center w h d).getDist Real.sqrt p =
        max (max (|center.x - p.x| - w / 2) (|center.y - p.y| - h / 2))
          (|center.z - p.z| - d / 2)) ∧
    (Shape.rect (⟨0, 0, 0⟩ : Vec3 ℝ) 2 2 2).getDist Real.sqrt ⟨0, 0, 0⟩ = -1 ∧
    (Shape.rect (⟨0, 0, 0⟩ : Vec3 ℝ) 2 2 2).getDist Real.sqrt ⟨2, 0, 0⟩ = 1 ∧
    (Shape.rect (⟨0, 0, 0⟩ : Vec3 ℝ) 2 3 2).getDist Real.sqrt ⟨0, 0, 0⟩ = -1 := by
  refine ⟨?_, ?_, ?_, ?_⟩
  · intro center p w h d
    simp only [Shape.rect, Shape.getDist, Shape.getDistReal, Bool.false_eq_true, if_false]
    rw [max_assoc]
    norm_num
    ring_nf
  · norm_num [Shape.rect, Shape.getDist, Shape.getDistReal]
  · norm_num [Shape.rect, Shape.getDist, Shape.getDistReal]
  · norm_num [Shape.rect, Shape.getDist, Shape.getDistReal]

/-- C4: for every shape `s` and point `p`, the reversed shape has
`getDist(p) = -s.getDist(p)` and `getNormal(p) = -s.getNormal(p)`. -/
theorem Shape.reverse_negates (s : Shape ℝ) (p : Vec3 ℝ) :
    s.reverse.getDist Real.sqrt p = -s.getDist Real.sqrt p ∧
    s.reverse.getNormal Real.sqrt p = -s.getNormal Real.sqrt p := by
  cases hrev : s.reversed <;>
    simp [Shape.reverse, Shape.getDist, Shape.getNormal, Shape.getDistReal,
      Shape.getNormalReal, hrev, Vec3.neg_neg_eq]


/-- The loop of `Collection::getNormal` from a state `(n0, d0)`: either no shape is
strictly below `d0` and the state is unchanged, or the state is that of the first shape
attaining the minimum distance, which is below `d0`. -/
theorem foldl_getNormalStep_spec (p : Vec3 ℝ) (l : List (Shape ℝ)) (st : Vec3 ℝ × ℝ) :
    ((∀ s ∈ l, st.2 ≤ s.getDist Real.sqrt p) ∧
        l.foldl (Collection.getNormalStep Real.sqrt p) st = st) ∨
    ∃ l₁ s l₂, l = l₁ ++ s :: l₂ ∧ s.getDist Real.sqrt p < st.2 ∧
      (∀ t ∈ l₁, s.getDist Real.sqrt p < t.getDist Real.sqrt p) ∧
      (∀ t ∈ l₂, s.getDist Real.sqrt p ≤ t.getDist Real.sqrt p) ∧
      l.foldl (Collection.getNormalStep Real.sqrt p) st =
        (s.getNormal Real.sqrt p, s.getDist Real.sqrt p) := by
  induction l generalizing st with
  | nil => left; simp
  | cons a l ih =>
    by_cases ha : a.getDist Real.sqrt p < st.2
    · have hstep : Collection.getNormalStep Real.sqrt p st a =
          (a.getNormal Real.sqrt p, a.getDist Real.sqrt p) := by
        simp [Collection.getNormalStep, ha]
      right
      rcases ih (a.getNormal Real.sqrt p, a.getDist Real.sqrt p) with
        ⟨hall, hres⟩ | ⟨l₁, s, l₂, hl, hlt, h1, h2, hres⟩
      · refine ⟨[], a, l, rfl, ha, ?_, hall, ?_⟩
        · intro t ht; simp at ht
        · rw [List.foldl_cons, hstep, hres]
      · refine ⟨a :: l₁, s, l₂, by rw [hl]; rfl, lt_trans hlt ha, ?_, h2, ?_⟩
        · intro t ht
          rcases List.mem_cons.mp ht with h | h
          · rw [h]; exact hlt
          · exact h1 t h
        · rw [List.foldl_cons, hstep, hres]
    · have hstep : Collection.getNormalStep Real.sqrt p st a = st := by
        simp [Collection.getNormalStep, ha]
      rcases ih st with ⟨hall, hres⟩ | ⟨l₁, s, l₂, hl, hlt, h1, h2, hres⟩
      · left
        refine ⟨?_, by rw [List.foldl_cons, hstep, hres]⟩
        intro t ht
        rcases List.mem_cons.mp ht with h | h
        · rw [h]; exact not_lt.mp ha
        · exact hall t h
      · right
        refine ⟨a :: l₁, s, l₂, by rw [hl]; rfl, hlt, ?_, h2, ?_⟩
        · intro t ht
          rcases List.mem_cons.mp ht with h | h
          · rw [h]; exact lt_of_lt_of_le hlt (not_lt.mp ha)
          · exact h1 t h
        · rw [List.foldl_cons, hstep, hres]

/-- C5 (as amended): for every scene `S` and point `p`, either every shape is at distance
at least `1000000` and `Collection::getNormal(p)` is the zero vector, or
`Collection::getNormal(p)` is `getNormal(p)` of the first shape, in the scene's order,
that attains the minimum of `getDist(p)` over `S`, that minimum being below `1000000`. -/
theorem Collection.getNormal_first_nearest (S : Collection ℝ) (p : Vec3 ℝ) :
    ((∀ s ∈ S.shapes, (1000000 : ℝ) ≤ s.getDist Real.sqrt p) ∧
        S.getNormal Real.sqrt p = Vec3.zero) ∨
    ∃ l₁ s l₂, S.shapes = l₁ ++ s :: l₂ ∧ s.getDist Real.sqrt p < 1000000 ∧
      (∀ t ∈ l₁, s.getDist Real.sqrt p < t.getDist Real.sqrt p) ∧
      (∀ t ∈ l₂, s.getDist Real.sqrt p ≤ t.getDist Real.sqrt p) ∧
      S.getNormal Real.sqrt p = s.getNormal Real.sqrt p := by
  rcases foldl_getNormalStep_spec p S.shapes (Vec3.zero, 1000000) with
    ⟨hall, hres⟩ | ⟨l₁, s, l₂, hl, hlt, h1, h2, hres⟩
  · left
    exact ⟨hall, by unfold Collection.getNormal; rw [hres]⟩
  · right
    exact ⟨l₁, s, l₂, hl, hlt, h1, h2, by unfold Collection.getNormal; rw [hres]⟩

/-- C5 (counterexample): for the scene holding the single box `rect((0,0,0), 2, 2, 2)` and
the point `(2000001, 0, 0)`, the only shape (hence the one of minimum distance) has normal
`(0, -1, 0)`, but `Collection::getNormal` returns `(0, 0, 0)`. -/
theorem Collection.getNormal_far_is_zero :
    (Collection.mk [Shape.rect (⟨0, 0, 0⟩ : Vec3 ℝ) 2 2 2]).getNormal Real.sqrt
      ⟨2000001, 0, 0⟩ = ⟨0, 0, 0⟩ ∧
    (Shape.rect (⟨0, 0, 0⟩ : Vec3 ℝ) 2 2 2).getNormal Real.sqrt ⟨2000001, 0, 0⟩
      = ⟨0, -1, 0⟩ ∧
    (Collection.mk [Shape.rect (⟨0, 0, 0⟩ : Vec3 ℝ) 2 2 2]).getNormal Real.sqrt
      ⟨2000001, 0, 0⟩ ≠
    (Shape.rect (⟨0, 0, 0⟩ : Vec3 ℝ) 2 2 2).getNormal Real.sqrt ⟨2000001, 0, 0⟩ := by
  have h1 : (Collection.mk [Shape.rect (⟨0, 0, 0⟩ : Vec3 ℝ) 2 2 2]).getNormal Real.sqrt
      ⟨2000001, 0, 0⟩ = ⟨0, 0, 0⟩ := by
    norm_num [Collection.getNormal, Collection.getNormalStep, Shape.rect, Shape.getDist,
      Shape.getDistReal, Vec3.zero]
  have h2 : (Shape.rect (⟨0, 0, 0⟩ : Vec3 ℝ) 2 2 2).getNormal Real.sqrt ⟨2000001, 0, 0⟩
      = ⟨0, -1, 0⟩ := by
    norm_num [Shape.rect, Shape.getNormal, Shape.getNormalReal, sign, Vec3.zero]
  refine ⟨h1, h2, ?_⟩
  rw [h1, h2]
  intro h
  have := congrArg Vec3.y h
  norm_num at this


theorem sign_mul_self (x : ℝ) : sign x * sign x = 1 := by
  unfold sign; split_ifs <;> norm_num

/-- C6 (as amended): for the box `Shape::rect(center, w, h, d)` and every point `p`, write
`mx`, `my`, `mz` for `| |center.axis - p.axis| - extent/2 |` on the three axes.  Either all
three are at least `1000000` and `getNormal(p)` is the zero vector, or `getNormal(p)` has
length `1`, lies along an axis whose value is the smallest of the three (the first such
axis in the order x, y, z) and below `1000000`, and its component on that axis is
`-sign(center.axis - p.axis)`. -/
theorem Shape.rect_getNormal_axis (center p : Vec3 ℝ) (w h d : ℝ) :
    ((1000000 ≤ |(|center.x - p.x| - w * 0.5)| ∧ 1000000 ≤ |(|center.y - p.y| - h * 0.5)| ∧
        1000000 ≤ |(|center.z - p.z| - d * 0.5)|) ∧
      (Shape.rect center w h d).getNormal Real.sqrt p = ⟨0, 0, 0⟩) ∨
    (((Shape.rect center w h d).getNormal Real.sqrt p).len Real.sqrt = 1 ∧
      (((Shape.rect center w h d).getNormal Real.sqrt p = ⟨-sign (center.x - p.x), 0, 0⟩ ∧
          |(|center.x - p.x| - w * 0.5)| < 1000000 ∧
          |(|center.x - p.x| - w * 0.5)| ≤ |(|center.y - p.y| - h * 0.5)| ∧
          |(|center.x - p.x| - w * 0.5)| ≤ |(|center.z - p.z| - d * 0.5)|) ∨
       ((Shape.rect center w h d).getNormal Real.sqrt p = ⟨0, -sign (center.y - p.y), 0⟩ ∧
          |(|center.y - p.y| - h * 0.5)| < 1000000 ∧
          |(|center.y - p.y| - h * 0.5)| < |(|center.x - p.x| - w * 0.5)| ∧
          |(|center.y - p.y| - h * 0.5)| ≤ |(|center.z - p.z| - d * 0.5)|) ∨
       ((Shape.rect center w h d).getNormal Real.sqrt p = ⟨0, 0, -sign (center.z - p.z)⟩ ∧
          |(|center.z - p.z| - d * 0.5)| < 1000000 ∧
          |(|center.z - p.z| - d * 0.5)| < |(|center.x - p.x| - w * 0.5)| ∧
          |(|center.z - p.z| - d * 0.5)| < |(|center.y - p.y| - h * 0.5)|))) := by
  simp only [Shape.rect, Shape.getNormal, Shape.getNormalReal, Bool.false_eq_true, if_false,
    Vec3.zero]
  generalize |(|center.x - p.x| - w * 0.5)| = mx
  generalize |(|center.y - p.y| - h * 0.5)| = my
  generalize |(|center.z - p.z| - d * 0.5)| = mz
  have hs := sign_mul_self
  have hlen : ∀ a b c : ℝ, a * a + b * b + c * c = 1 →
      Vec3.len Real.sqrt (⟨a, b, c⟩ : Vec3 ℝ) = 1 := by
    intro a b c habc
    simp only [Vec3.len, habc, Real.sqrt_one]
  split_ifs
  all_goals dsimp only at *
  all_goals first
    | (left; refine ⟨⟨?_, ?_, ?_⟩, rfl⟩ <;> linarith)
    | (right; refine ⟨hlen _ _ _ (by simp [hs]), Or.inl ⟨rfl, ?_, ?_, ?_⟩⟩ <;> linarith)
    | (right; refine ⟨hlen _ _ _ (by simp [hs]), Or.inr (Or.inl ⟨rfl, ?_, ?_, ?_⟩)⟩ <;> linarith)
    | (right; refine ⟨hlen _ _ _ (by simp [hs]), Or.inr (Or.inr ⟨rfl, ?_, ?_, ?_⟩)⟩ <;> linarith)

/-- C6 (counterexample): for the box `rect((0,0,0), 2, 2, 2)` and the point
`(2000001, 2000001, 2000001)`, `getNormal` returns the zero vector, whose length is `0`,
not `1`. -/
theorem Shape.rect_getNormal_far_not_unit :
    (Shape.rect (⟨0, 0, 0⟩ : Vec3 ℝ) 2 2 2).getNormal Real.sqrt
      ⟨2000001, 2000001, 2000001⟩ = ⟨0, 0, 0⟩ ∧
    ((Shape.rect (⟨0, 0, 0⟩ : Vec3 ℝ) 2 2 2).getNormal Real.sqrt
      ⟨2000001, 2000001, 2000001⟩).len Real.sqrt ≠ 1 := by
  have h : (Shape.rect (⟨0, 0, 0⟩ : Vec3 ℝ) 2 2 2).getNormal Real.sqrt
      ⟨2000001, 2000001, 2000001⟩ = ⟨0, 0, 0⟩ := by
    norm_num [Shape.rect, Shape.getNormal, Shape.getNormalReal, Vec3.zero]
  refine ⟨h, ?_⟩
  rw [h]
  simp [Vec3.len]


theorem Vec3.len_nonneg (a : Vec3 ℝ) : 0 ≤ a.len Real.sqrt := Real.sqrt_nonneg _

theorem Vec3.len_mul_self (a : Vec3 ℝ) :
    a.len Real.sqrt * a.len Real.sqrt = a.x * a.x + a.y * a.y + a.z * a.z := by
  unfold Vec3.len
  have h : 0 ≤ a.x * a.x + a.y * a.y + a.z * a.z := by
    nlinarith [mul_self_nonneg a.x, mul_self_nonneg a.y, mul_self_nonneg a.z]
  exact Real.mul_self_sqrt h

/-- Cauchy-Schwarz for the dot product of `Vec3`. -/
theorem Vec3.abs_dot_le (a b : Vec3 ℝ) :
    |a.dot b| ≤ a.len Real.sqrt * b.len Real.sqrt := by
  have ha := Vec3.len_mul_self a
  have hb := Vec3.len_mul_self b
  have hna := Vec3.len_nonneg a
  have hnb := Vec3.len_nonneg b
  apply abs_le_of_sq_le_sq _ (mul_nonneg hna hnb)
  have : (a.len Real.sqrt * b.len Real.sqrt) ^ 2 =
      (a.x * a.x + a.y * a.y + a.z * a.z) * (b.x * b.x + b.y * b.y + b.z * b.z) := by
    rw [← ha, ← hb]; ring
  rw [this]
  unfold Vec3.dot
  nlinarith [sq_nonneg (a.x * b.y - a.y * b.x), sq_nonneg (a.x * b.z - a.z * b.x),
    sq_nonneg (a.y * b.z - a.z * b.y)]

/-- The triangle inequality for `Vec3::len`. -/
theorem Vec3.len_add_le (a b : Vec3 ℝ) :
    (a + b).len Real.sqrt ≤ a.len Real.sqrt + b.len Real.sqrt := by
  have ha := Vec3.len_mul_self a
  have hb := Vec3.len_mul_self b
  have hna := Vec3.len_nonneg a
  have hnb := Vec3.len_nonneg b
  have hcs := le_trans (le_abs_self _) (Vec3.abs_dot_le a b)
  unfold Vec3.dot at hcs
  have key : (a + b).x * (a + b).x + (a + b).y * (a + b).y + (a + b).z * (a + b).z ≤
      (a.len Real.sqrt + b.len Real.sqrt) ^ 2 := by
    simp only [Vec3.add_x, Vec3.add_y, Vec3.add_z]
    nlinarith
  show Real.sqrt _ ≤ _
  exact Real.sqrt_le_iff.mpr ⟨add_nonneg hna hnb, key⟩

theorem Vec3.len_neg (a : Vec3 ℝ) : (-a).len Real.sqrt = a.len Real.sqrt := by
  simp [Vec3.len]

theorem Vec3.len_sub_comm (a b : Vec3 ℝ) : (a - b).len Real.sqrt = (b - a).len Real.sqrt := by
  unfold Vec3.len
  congr 1
  simp only [Vec3.sub_x, Vec3.sub_y, Vec3.sub_z]
  ring

/-- The triangle inequality on three points. -/
theorem Vec3.len_sub_le (a b c : Vec3 ℝ) :
    (a - c).len Real.sqrt ≤ (a - b).len Real.sqrt + (b - c).len Real.sqrt := by
  have h := Vec3.len_add_le (a - b) (b - c)
  have e : (a - b) + (b - c) = a - c := by
    ext <;> simp
  rwa [e] at h

theorem Vec3.len_scale (a : Vec3 ℝ) (s : ℝ) :
    (a.scale s).len Real.sqrt = a.len Real.sqrt * |s| := by
  unfold Vec3.len
  simp only [Vec3.scale_x, Vec3.scale_y, Vec3.scale_z]
  have h : 0 ≤ a.x * a.x + a.y * a.y + a.z * a.z := by
    nlinarith [mul_self_nonneg a.x, mul_self_nonneg a.y, mul_self_nonneg a.z]
  rw [← Real.sqrt_mul_self (abs_nonneg s), ← Real.sqrt_mul h]
  congr 1
  rw [abs_mul_abs_self]
  ring

theorem Vec3.abs_x_le_len (a : Vec3 ℝ) : |a.x| ≤ a.len Real.sqrt := by
  apply Real.abs_le_sqrt
  nlinarith [mul_self_nonneg a.y, mul_self_nonneg a.z]

theorem Vec3.abs_y_le_len (a : Vec3 ℝ) : |a.y| ≤ a.len Real.sqrt := by
  apply Real.abs_le_sqrt
  nlinarith [mul_self_nonneg a.x, mul_self_nonneg a.z]

theorem Vec3.abs_z_le_len (a : Vec3 ℝ) : |a.z| ≤ a.len Real.sqrt := by
  apply Real.abs_le_sqrt
  nlinarith [mul_self_nonneg a.x, mul_self_nonneg a.y]

theorem Vec3.len_eq_zero_iff (a : Vec3 ℝ) : a.len Real.sqrt = 0 ↔ a = ⟨0, 0, 0⟩ := by
  constructor
  · intro h
    have hx := Vec3.abs_x_le_len a
    have hy := Vec3.abs_y_le_len a
    have hz := Vec3.abs_z_le_len a
    rw [h] at hx hy hz
    ext
    · exact abs_nonpos_iff.mp hx
    · exact abs_nonpos_iff.mp hy
    · exact abs_nonpos_iff.mp hz
  · intro h
    rw [h]
    simp [Vec3.len]


/-- The sphere distance `len(p - c) - r` is the true signed distance to the sphere. -/
theorem sphere_isSignedDist (c p : Vec3 ℝ) (r : ℝ) (hr : 0 < r) :
    Spec.IsSignedDist (Spec.sphereInside c r) (Spec.sphereSurface c r) p
      ((p - c).len Real.sqrt - r) := by
  have hL := Vec3.len_nonneg (p - c)
  refine ⟨fun h => by unfold Spec.sphereInside at h; linarith, ?_, ?_, ?_⟩
  · intro h1 h2
    unfold Spec.sphereInside at h1
    unfold Spec.sphereSurface at h2
    have : (p - c).len Real.sqrt ≠ r := h2
    have h3 := lt_of_le_of_ne (not_lt.mp h1) (Ne.symm this)
    linarith
  · -- a nearest surface point
    by_cases hp : (p - c).len Real.sqrt = 0
    · refine ⟨c + (⟨1, 0, 0⟩ : Vec3 ℝ).scale r, ?_, ?_⟩
      · unfold Spec.sphereSurface
        exact Vec3.len_add_scale_sub c ⟨1, 0, 0⟩ r hr.le (by simp [Vec3.len])
      · have hpc : p - c = ⟨0, 0, 0⟩ := (Vec3.len_eq_zero_iff _).mp hp
        have hx : p.x = c.x := by
          have := congrArg Vec3.x hpc; simp at this; linarith
        have hy : p.y = c.y := by
          have := congrArg Vec3.y hpc; simp at this; linarith
        have hz : p.z = c.z := by
          have := congrArg Vec3.z hpc; simp at this; linarith
        rw [hp, Vec3.len_sub_comm]
        have e : c + (⟨1, 0, 0⟩ : Vec3 ℝ).scale r - p = c + (⟨1, 0, 0⟩ : Vec3 ℝ).scale r - c := by
          ext <;> simp [hx, hy, hz]
        rw [e, Vec3.len_add_scale_sub c ⟨1, 0, 0⟩ r hr.le (by simp [Vec3.len])]
        simp [abs_of_pos hr]
    · have hpos : 0 < (p - c).len Real.sqrt := lt_of_le_of_ne hL (Ne.symm hp)
      refine ⟨c + (p - c).scale (r / (p - c).len Real.sqrt), ?_, ?_⟩
      · unfold Spec.sphereSurface
        have e : c + (p - c).scale (r / (p - c).len Real.sqrt) - c
            = (p - c).scale (r / (p - c).len Real.sqrt) := by
          ext <;> simp
        rw [e, Vec3.len_scale, abs_of_pos (div_pos hr hpos)]
        field_simp
      · have e : p - (c + (p - c).scale (r / (p - c).len Real.sqrt))
            = (p - c).scale (1 - r / (p - c).len Real.sqrt) := by
          ext <;> simp <;> ring
        rw [e, Vec3.len_scale]
        have : (p - c).len Real.sqrt = |(p - c).len Real.sqrt| := (abs_of_pos hpos).symm
        nth_rewrite 2 [this]
        rw [← abs_mul]
        congr 1
        field_simp
  · rintro t ⟨q, hq, rfl⟩
    unfold Spec.sphereSurface at hq
    have h1 := Vec3.len_sub_le p q c
    have h2 := Vec3.len_sub_le q p c
    rw [Vec3.len_sub_comm q p] at h2
    rw [abs_le]
    constructor <;> linarith


/-- The Chebyshev box distance has the sign of the true signed distance and its magnitude
is a lower bound on the Euclidean distance to every surface point. -/
theorem box_dist_sign_and_bound (c p : Vec3 ℝ) (w h d : ℝ) :
    (Spec.boxInside c w h d p →
      max (|c.x - p.x| - w * 0.5) (max (|c.y - p.y| - h * 0.5) (|c.z - p.z| - d * 0.5)) < 0) ∧
    (¬ Spec.boxInside c w h d p → ¬ Spec.boxSurface c w h d p →
      0 < max (|c.x - p.x| - w * 0.5) (max (|c.y - p.y| - h * 0.5) (|c.z - p.z| - d * 0.5))) ∧
    (∀ q, Spec.boxSurface c w h d q →
      |max (|c.x - p.x| - w * 0.5) (max (|c.y - p.y| - h * 0.5) (|c.z - p.z| - d * 0.5))|
        ≤ (p - q).len Real.sqrt) := by
  have ex : |c.x - p.x| = |p.x - c.x| := abs_sub_comm _ _
  have ey : |c.y - p.y| = |p.y - c.y| := abs_sub_comm _ _
  have ez : |c.z - p.z| = |p.z - c.z| := abs_sub_comm _ _
  refine ⟨?_, ?_, ?_⟩
  · rintro ⟨h1, h2, h3⟩
    rw [max_lt_iff, max_lt_iff]
    refine ⟨by linarith, by linarith, by linarith⟩
  · intro hin hsurf
    have hsolid : ¬ Spec.boxSolid c w h d p := fun hs => hsurf ⟨hs, hin⟩
    unfold Spec.boxSolid at hsolid
    rw [lt_max_iff, lt_max_iff]
    by_contra hcon
    push_neg at hcon
    apply hsolid
    refine ⟨by linarith, by linarith, by linarith⟩
  · rintro q ⟨⟨s1, s2, s3⟩, hnin⟩
    have lx := Vec3.abs_x_le_len (p - q)
    have ly := Vec3.abs_y_le_len (p - q)
    have lz := Vec3.abs_z_le_len (p - q)
    simp only [Vec3.sub_x, Vec3.sub_y, Vec3.sub_z] at lx ly lz
    have tx1 : |p.x - c.x| ≤ |p.x - q.x| + |q.x - c.x| := abs_sub_le _ _ _
    have ty1 : |p.y - c.y| ≤ |p.y - q.y| + |q.y - c.y| := abs_sub_le _ _ _
    have tz1 : |p.z - c.z| ≤ |p.z - q.z| + |q.z - c.z| := abs_sub_le _ _ _
    have tx2 : |q.x - c.x| ≤ |q.x - p.x| + |p.x - c.x| := abs_sub_le _ _ _
    have ty2 : |q.y - c.y| ≤ |q.y - p.y| + |p.y - c.y| := abs_sub_le _ _ _
    have tz2 : |q.z - c.z| ≤ |q.z - p.z| + |p.z - c.z| := abs_sub_le _ _ _
    rw [abs_sub_comm q.x p.x] at tx2
    rw [abs_sub_comm q.y p.y] at ty2
    rw [abs_sub_comm q.z p.z] at tz2
    rw [abs_le]
    constructor
    · -- the value is at least minus the distance: some axis of `q` is on a face
      have m1 : |c.x - p.x| - w * 0.5 ≤
          max (|c.x - p.x| - w * 0.5) (max (|c.y - p.y| - h * 0.5) (|c.z - p.z| - d * 0.5)) :=
        le_max_left _ _
      have m2 : |c.y - p.y| - h * 0.5 ≤
          max (|c.x - p.x| - w * 0.5) (max (|c.y - p.y| - h * 0.5) (|c.z - p.z| - d * 0.5)) :=
        le_trans (le_max_left _ _) (le_max_right _ _)
      have m3 : |c.z - p.z| - d * 0.5 ≤
          max (|c.x - p.x| - w * 0.5) (max (|c.y - p.y| - h * 0.5) (|c.z - p.z| - d * 0.5)) :=
        le_trans (le_max_right _ _) (le_max_right _ _)
      unfold Spec.boxInside at hnin
      by_cases a1 : |q.x - c.x| < w / 2
      · by_cases a2 : |q.y - c.y| < h / 2
        · have a3 : ¬ |q.z - c.z| < d / 2 := fun a3 => hnin ⟨a1, a2, a3⟩
          linarith [not_lt.mp a3]
        · linarith [not_lt.mp a2]
      · linarith [not_lt.mp a1]
    · rw [max_le_iff, max_le_iff]
      refine ⟨by linarith, by linarith, by linarith⟩

/-- On one axis: a point within the half-extent of the centre has a face coordinate at
distance `w/2 - |cx - px|`. -/
theorem axis_face_point (cx px w : ℝ) (hw : 0 < w) (hs : |px - cx| ≤ w / 2) :
    ∃ qx, |qx - cx| = w / 2 ∧ |px - qx| = -(|cx - px| - w * 0.5) := by
  have hw2 : |w / 2| = w / 2 := abs_of_pos (half_pos hw)
  obtain ⟨b1, b2⟩ := abs_le.mp hs
  rcases le_total cx px with h | h
  · refine ⟨cx + w / 2, by simp [hw2], ?_⟩
    rw [abs_of_nonpos (show px - (cx + w / 2) ≤ 0 by linarith),
      abs_of_nonpos (show cx - px ≤ 0 by linarith)]
    norm_num
    ring
  · refine ⟨cx - w / 2, by simp [hw2], ?_⟩
    rw [abs_of_nonneg (show 0 ≤ px - (cx - w / 2) by linarith),
      abs_of_nonneg (show 0 ≤ cx - px by linarith)]
    norm_num
    ring

/-- For a point of the closed box with positive extents, some surface point is at Euclidean
distance exactly the magnitude of the Chebyshev box distance. -/
theorem box_dist_attained (c p : Vec3 ℝ) (w h d : ℝ) (hw : 0 < w) (hh : 0 < h) (hd : 0 < d)
    (hp : Spec.boxSolid c w h d p) :
    ∃ q, Spec.boxSurface c w h d q ∧
      |max (|c.x - p.x| - w * 0.5) (max (|c.y - p.y| - h * 0.5) (|c.z - p.z| - d * 0.5))|
        = (p - q).len Real.sqrt := by
  obtain ⟨s1, s2, s3⟩ := hp
  have hv : max (|c.x - p.x| - w * 0.5) (max (|c.y - p.y| - h * 0.5) (|c.z - p.z| - d * 0.5))
      ≤ 0 := by
    rw [max_le_iff, max_le_iff, abs_sub_comm c.x, abs_sub_comm c.y, abs_sub_comm c.z]
    refine ⟨by linarith, by linarith, by linarith⟩
  rw [abs_of_nonpos hv]
  have hlen1 : ∀ t : ℝ, Vec3.len Real.sqrt (⟨t, 0, 0⟩ : Vec3 ℝ) = |t| := by
    intro t; simp [Vec3.len, Real.sqrt_mul_self_eq_abs]
  have hlen2 : ∀ t : ℝ, Vec3.len Real.sqrt (⟨0, t, 0⟩ : Vec3 ℝ) = |t| := by
    intro t; simp [Vec3.len, Real.sqrt_mul_self_eq_abs]
  have hlen3 : ∀ t : ℝ, Vec3.len Real.sqrt (⟨0, 0, t⟩ : Vec3 ℝ) = |t| := by
    intro t; simp [Vec3.len, Real.sqrt_mul_self_eq_abs]
  rcases max_choice (|c.x - p.x| - w * 0.5)
      (max (|c.y - p.y| - h * 0.5) (|c.z - p.z| - d * 0.5)) with hm | hm
  · -- the x face is nearest
    rw [hm]
    obtain ⟨qx, hq1, hq2⟩ := axis_face_point c.x p.x w hw s1
    refine ⟨⟨qx, p.y, p.z⟩, ⟨⟨le_of_eq hq1, s2, s3⟩, ?_⟩, ?_⟩
    · rintro ⟨a, _, _⟩
      exact absurd hq1 (ne_of_lt a)
    · have e : p - (⟨qx, p.y, p.z⟩ : Vec3 ℝ) = ⟨p.x - qx, 0, 0⟩ := by
        ext <;> simp
      rw [e, hlen1, hq2]
  · rw [hm]
    rcases max_choice (|c.y - p.y| - h * 0.5) (|c.z - p.z| - d * 0.5) with hm2 | hm2
    · rw [hm2]
      obtain ⟨qy, hq1, hq2⟩ := axis_face_point c.y p.y h hh s2
      refine ⟨⟨p.x, qy, p.z⟩, ⟨⟨s1, le_of_eq hq1, s3⟩, ?_⟩, ?_⟩
      · rintro ⟨_, a, _⟩
        exact absurd hq1 (ne_of_lt a)
      · have e : p - (⟨p.x, qy, p.z⟩ : Vec3 ℝ) = ⟨0, p.y - qy, 0⟩ := by
          ext <;> simp
        rw [e, hlen2, hq2]
    · rw [hm2]
      obtain ⟨qz, hq1, hq2⟩ := axis_face_point c.z p.z d hd s3
      refine ⟨⟨p.x, p.y, qz⟩, ⟨⟨s1, s2, ?_⟩, ?_⟩, ?_⟩
      · exact le_of_eq hq1
      · rintro ⟨_, _, a⟩
        exact absurd hq1 (ne_of_lt a)
      · have e : p - (⟨p.x, p.y, qz⟩ : Vec3 ℝ) = ⟨0, 0, p.z - qz⟩ := by
          ext <;> simp
        rw [e, hlen3, hq2]


/-- C7 (as amended): for the sphere `Shape::circle(c, r)` with `r > 0`, `getDist(p)` is the
true signed Euclidean distance from `p` to the sphere's surface.  For the box
`Shape::rect(c, w, h, d)` with positive extents, `getDist(p)` is negative strictly inside
the box and positive outside it, its magnitude is a lower bound on the Euclidean distance
from `p` to every surface point, and for every `p` of the closed box it is the true signed
Euclidean distance to the surface. -/
theorem Shape.getDist_true_distance (c p : Vec3 ℝ) (r w h d : ℝ) (hr : 0 < r) (hw : 0 < w)
    (hh : 0 < h) (hd : 0 < d) :
    Spec.IsSignedDist (Spec.sphereInside c r) (Spec.sphereSurface c r) p
      ((Shape.circle c r).getDist Real.sqrt p) ∧
    (Spec.boxInside c w h d p → (Shape.rect c w h d).getDist Real.sqrt p < 0) ∧
    (¬ Spec.boxInside c w h d p → ¬ Spec.boxSurface c w h d p →
      0 < (Shape.rect c w h d).getDist Real.sqrt p) ∧
    (∀ q, Spec.boxSurface c w h d q →
      |(Shape.rect c w h d).getDist Real.sqrt p| ≤ (p - q).len Real.sqrt) ∧
    (Spec.boxSolid c w h d p →
      Spec.IsSignedDist (Spec.boxInside c w h d) (Spec.boxSurface c w h d) p
        ((Shape.rect c w h d).getDist Real.sqrt p)) := by
  have hs : (Shape.circle c r).getDist Real.sqrt p = (p - c).len Real.sqrt - r := by
    simp [Shape.circle, Shape.getDist, Shape.getDistReal]
  have hb : (Shape.rect c w h d).getDist Real.sqrt p =
      max (|c.x - p.x| - w * 0.5) (max (|c.y - p.y| - h * 0.5) (|c.z - p.z| - d * 0.5)) := by
    simp only [Shape.rect, Shape.getDist, Shape.getDistReal, Bool.false_eq_true, if_false]
  obtain ⟨b1, b2, b3⟩ := box_dist_sign_and_bound c p w h d
  rw [hs, hb]
  refine ⟨sphere_isSignedDist c p r hr, b1, b2, b3, ?_⟩
  intro hsolid
  refine ⟨b1, b2, ?_, ?_⟩
  · obtain ⟨q, hq, he⟩ := box_dist_attained c p w h d hw hh hd hsolid
    exact ⟨q, hq, he⟩
  · rintro t ⟨q, hq, rfl⟩
    exact b3 q hq

/-- C7 (witness): the unit sphere and the box of extents `2x2x2`, both at the origin, seen
from the origin. -/
theorem Shape.getDist_true_distance_witness :
    (0 : ℝ) < 1 ∧ (0 : ℝ) < 2 ∧
    Spec.IsSignedDist (Spec.sphereInside ⟨0, 0, 0⟩ 1) (Spec.sphereSurface ⟨0, 0, 0⟩ 1)
      ⟨0, 0, 0⟩ ((Shape.circle (⟨0, 0, 0⟩ : Vec3 ℝ) 1).getDist Real.sqrt ⟨0, 0, 0⟩) ∧
    Spec.boxSolid ⟨0, 0, 0⟩ 2 2 2 ⟨0, 0, 0⟩ ∧
    Spec.IsSignedDist (Spec.boxInside ⟨0, 0, 0⟩ 2 2 2) (Spec.boxSurface ⟨0, 0, 0⟩ 2 2 2)
      ⟨0, 0, 0⟩ ((Shape.rect (⟨0, 0, 0⟩ : Vec3 ℝ) 2 2 2).getDist Real.sqrt ⟨0, 0, 0⟩) :=
  have hsolid : Spec.boxSolid ⟨0, 0, 0⟩ 2 2 2 ⟨0, 0, 0⟩ := by
    norm_num [Spec.boxSolid]
  have key := Shape.getDist_true_distance ⟨0, 0, 0⟩ ⟨0, 0, 0⟩ 1 2 2 2
    (by norm_num) (by norm_num) (by norm_num) (by norm_num)
  ⟨by norm_num, by norm_num, key.1, hsolid, key.2.2.2.2 hsolid⟩

/-- C7 (counterexample): for the box `rect((0,0,0), 2, 2, 2)` and the point `(2, 2, 0)`,
`getDist` is `1`, which is not the true signed distance to the surface: every surface point
is at Euclidean distance more than `1` (the nearest is at `√2`). -/
theorem Shape.rect_getDist_not_euclidean :
    (Shape.rect (⟨0, 0, 0⟩ : Vec3 ℝ) 2 2 2).getDist Real.sqrt ⟨2, 2, 0⟩ = 1 ∧
    ¬ Spec.IsSignedDist (Spec.boxInside ⟨0, 0, 0⟩ 2 2 2) (Spec.boxSurface ⟨0, 0, 0⟩ 2 2 2)
      ⟨2, 2, 0⟩ ((Shape.rect (⟨0, 0, 0⟩ : Vec3 ℝ) 2 2 2).getDist Real.sqrt ⟨2, 2, 0⟩) := by
  have hv : (Shape.rect (⟨0, 0, 0⟩ : Vec3 ℝ) 2 2 2).getDist Real.sqrt ⟨2, 2, 0⟩ = 1 := by
    norm_num [Shape.rect, Shape.getDist, Shape.getDistReal]
  refine ⟨hv, ?_⟩
  rw [hv]
  rintro ⟨_, _, ⟨q, ⟨⟨s1, s2, _⟩, _⟩, hq⟩, _⟩
  have hsq := Vec3.len_mul_self ((⟨2, 2, 0⟩ : Vec3 ℝ) - q)
  rw [← hq] at hsq
  simp only [Vec3.sub_x, Vec3.sub_y, Vec3.sub_z, sub_zero] at hsq s1 s2
  have hx := (abs_le.mp s1).2
  have hy := (abs_le.mp s2).2
  norm_num at hsq hx hy
  nlinarith [mul_self_nonneg q.z, mul_self_nonneg (q.x - 1), mul_self_nonneg (q.y - 1)]


/-- The loop of `march` returns `0` from any state on a ray along which the scene distance
never drops below `0.01` within `maxDist`. -/
theorem marchLoop_eq_zero_of_clear (onHit : Vec3 ℝ → ℝ) (S : Collection ℝ)
    (origin dir : Vec3 ℝ) (maxDist : ℝ)
    (H : ∀ t : ℝ, 0 ≤ t → t ≤ maxDist →
      0.01 ≤ S.getDist Real.sqrt (origin + dir.scale t))
    (n : Nat) (pos : Vec3 ℝ) (sumDist : ℝ) (hpos : pos = origin + dir.scale sumDist)
    (h0 : 0 ≤ sumDist) (h1 : sumDist ≤ maxDist) :
    Camera.marchLoop Real.sqrt onHit dir S maxDist n pos sumDist = 0 := by
  induction n generalizing pos sumDist with
  | zero => rfl
  | succ n ih =>
    have hd : 0.01 ≤ S.getDist Real.sqrt pos := by
      rw [hpos]; exact H sumDist h0 h1
    unfold Camera.marchLoop
    simp only
    split_ifs with c1 c2 c3
    · rfl
    · rfl
    · exact absurd hd (not_le.mpr c3)
    · apply ih
      · rw [hpos]
        ext <;> simp <;> ring
      · have : (0 : ℝ) ≤ 0.01 := by norm_num
        linarith
      · exact not_lt.mp c1

/-- C8: if the scene distance at `origin + direction*t` is at least `0.01` for every `t` in
`[0, maxDistance]`, with `maxDistance ≥ 0`, then `Camera::march` returns `0`, for every
scene, camera, direction and lighting flag. -/
theorem Camera.march_clear_ray_returns_zero (cam : Camera ℝ) (S : Collection ℝ)
    (origin dir : Vec3 ℝ) (maxDist : ℝ) (light : Bool) (hmax : 0 ≤ maxDist)
    (H : ∀ t : ℝ, 0 ≤ t → t ≤ maxDist →
      0.01 ≤ S.getDist Real.sqrt (origin + dir.scale t)) :
    cam.march Real.sqrt origin dir S maxDist light = 0 := by
  unfold Camera.march
  apply marchLoop_eq_zero_of_clear _ S origin dir maxDist H 100 origin 0 _ le_rfl hmax
  ext <;> simp

/-- C8 (witness): the box `rect((0,0,10), 2, 2, 2)`, a ray from the origin along
`(0, 0, -1)` (away from the box) and `maxDistance = 5`. -/
theorem Camera.march_clear_ray_returns_zero_witness :
    (0 : ℝ) ≤ 5 ∧
    (∀ t : ℝ, 0 ≤ t → t ≤ 5 →
      0.01 ≤ (Collection.mk [Shape.rect (⟨0, 0, 10⟩ : Vec3 ℝ) 2 2 2]).getDist Real.sqrt
        ((⟨0, 0, 0⟩ : Vec3 ℝ) + (⟨0, 0, -1⟩ : Vec3 ℝ).scale t)) ∧
    (Camera.new 360 100 : Camera ℝ).march Real.sqrt ⟨0, 0, 0⟩ ⟨0, 0, -1⟩
      (Collection.mk [Shape.rect (⟨0, 0, 10⟩ : Vec3 ℝ) 2 2 2]) 5 true = 0 :=
  have H : ∀ t : ℝ, 0 ≤ t → t ≤ 5 →
      0.01 ≤ (Collection.mk [Shape.rect (⟨0, 0, 10⟩ : Vec3 ℝ) 2 2 2]).getDist Real.sqrt
        ((⟨0, 0, 0⟩ : Vec3 ℝ) + (⟨0, 0, -1⟩ : Vec3 ℝ).scale t) := by
    intro t ht0 _
    have h3 : |(10 : ℝ) - (0 + -1 * t)| = 10 + t := by
      rw [abs_of_nonneg (by linarith)]; ring
    simp only [Collection.getDist, List.foldl_cons, List.foldl_nil, Shape.rect,
      Shape.getDist, Shape.getDistReal, Bool.false_eq_true, if_false, Vec3.add_x,
      Vec3.add_y, Vec3.add_z, Vec3.scale_x, Vec3.scale_y, Vec3.scale_z, h3]
    refine le_min (by norm_num) (le_max_of_le_right (le_max_of_le_right ?_))
    norm_num
    linarith
  ⟨by norm_num, H,
    Camera.march_clear_ray_returns_zero (Camera.new 360 100)
      (Collection.mk [Shape.rect (⟨0, 0, 10⟩ : Vec3 ℝ) 2 2 2]) ⟨0, 0, 0⟩ ⟨0, 0, -1⟩ 5 true
      (by norm_num) H⟩


/-- The scene distance of a single sphere whose distance is at most `1000000`. -/
theorem single_circle_getDist (c p : Vec3 ℝ) (r : ℝ)
    (h : (p - c).len Real.sqrt - r ≤ 1000000) :
    (Collection.mk [Shape.circle c r]).getDist Real.sqrt p = (p - c).len Real.sqrt - r := by
  simp only [Collection.getDist, List.foldl_cons, List.foldl_nil, Shape.circle, Shape.getDist,
    Shape.getDistReal, Bool.false_eq_true, if_false]
  exact min_eq_right h

/-- Starting at distance `5` from the centre of a unit sphere and aiming at the centre, the
first step of `march` advances by `4` onto the sphere's surface. -/
theorem len_after_first_step (c s : Vec3 ℝ) (hs : (s - c).len Real.sqrt = 5) :
    (s + ((c - s).normalize Real.sqrt).scale 4 - c).len Real.sqrt = 1 := by
  have h5 : (c - s).len Real.sqrt = 5 := by rw [Vec3.len_sub_comm]; exact hs
  have e : s + ((c - s).normalize Real.sqrt).scale 4 - c = (s - c).scale (1 / 5) := by
    unfold Vec3.normalize
    rw [h5]
    ext <;> simp <;> ring
  rw [e, Vec3.len_scale, hs]
  norm_num [abs_of_pos]

/-- C9: for the scene holding a single sphere of radius `1` and centre `c`, a start point
`s` at distance `5` from `c`, the direction `normalize(c - s)` and `maxDistance ≥ 5`, the
loop of `Camera::march` detects a hit on its second iteration, at the position
`s + dir*4`; so `march` returns `1` when `light` is false (and `getLight` of that position
when it is true), and the scene distance at that position is below `0.01` in absolute
value. -/
theorem Camera.march_hits_unit_sphere (cam : Camera ℝ) (c s : Vec3 ℝ) (maxDist : ℝ)
    (hs : (s - c).len Real.sqrt = 5) (hmax : 5 ≤ maxDist) :
    (∀ (n : Nat) (onHit : Vec3 ℝ → ℝ),
      Camera.marchLoop Real.sqrt onHit ((c - s).normalize Real.sqrt)
        (Collection.mk [Shape.circle c 1]) maxDist (n + 2) s 0
        = onHit (s + ((c - s).normalize Real.sqrt).scale 4)) ∧
    cam.march Real.sqrt s ((c - s).normalize Real.sqrt) (Collection.mk [Shape.circle c 1])
      maxDist false = 1 ∧
    cam.march Real.sqrt s ((c - s).normalize Real.sqrt) (Collection.mk [Shape.circle c 1])
      maxDist true
      = cam.getLight Real.sqrt (s + ((c - s).normalize Real.sqrt).scale 4)
          (Collection.mk [Shape.circle c 1]) ∧
    |(Collection.mk [Shape.circle c 1]).getDist Real.sqrt
      (s + ((c - s).normalize Real.sqrt).scale 4)| < 0.01 := by
  have d0 : (Collection.mk [Shape.circle c 1]).getDist Real.sqrt s = 4 := by
    rw [single_circle_getDist c s 1 (by rw [hs]; norm_num), hs]; norm_num
  have d1 : (Collection.mk [Shape.circle c 1]).getDist Real.sqrt
      (s + ((c - s).normalize Real.sqrt).scale 4) = 0 := by
    have h1 := len_after_first_step c s hs
    rw [single_circle_getDist c _ 1 (by rw [h1]; norm_num), h1]; norm_num
  have loop : ∀ (n : Nat) (onHit : Vec3 ℝ → ℝ),
      Camera.marchLoop Real.sqrt onHit ((c - s).normalize Real.sqrt)
        (Collection.mk [Shape.circle c 1]) maxDist (n + 2) s 0
        = onHit (s + ((c - s).normalize Real.sqrt).scale 4) := by
    intro n onHit
    have a1 : ¬ (0 + 4 > maxDist) := by intro h; linarith
    have a2 : ¬ ((4 : ℝ) > maxDist) := by intro h; linarith
    have a3 : ¬ ((4 : ℝ) < 0.01) := by norm_num
    have b1 : ¬ (0 + 4 + 0 > maxDist) := by intro h; linarith
    have b2 : ¬ ((0 : ℝ) > maxDist) := by intro h; linarith
    have b3 : (0 : ℝ) < 0.01 := by norm_num
    rw [Camera.marchLoop]
    simp only [d0, a1, a2, a3, if_false]
    rw [Camera.marchLoop]
    simp only [d1, b1, b2, b3, if_false, if_true]
  refine ⟨loop, ?_, ?_, ?_⟩
  · unfold Camera.march
    rw [loop 98]
    simp
  · unfold Camera.march
    rw [loop 98]
    simp
  · rw [d1]; norm_num

/-- C9 (witness): the unit sphere at the origin, marched from `(0, 0, -5)` with
`maxDistance = 500`. -/
theorem Camera.march_hits_unit_sphere_witness :
    ((⟨0, 0, -5⟩ : Vec3 ℝ) - ⟨0, 0, 0⟩).len Real.sqrt = 5 ∧ (5 : ℝ) ≤ 500 ∧
    (Camera.new 360 100 : Camera ℝ).march Real.sqrt ⟨0, 0, -5⟩
      (((⟨0, 0, 0⟩ : Vec3 ℝ) - ⟨0, 0, -5⟩).normalize Real.sqrt)
      (Collection.mk [Shape.circle ⟨0, 0, 0⟩ 1]) 500 false = 1 :=
  have hlen : ((⟨0, 0, -5⟩ : Vec3 ℝ) - ⟨0, 0, 0⟩).len Real.sqrt = 5 := by
    simp [Vec3.len]
  ⟨hlen, by norm_num,
    (Camera.march_hits_unit_sphere (Camera.new 360 100) ⟨0, 0, 0⟩ ⟨0, 0, -5⟩ 500 hlen
      (by norm_num)).2.1⟩


/-- The loop of `march` stays within `[0, 1]` when the value returned on a hit does. -/
theorem marchLoop_mem_unit (onHit : Vec3 ℝ → ℝ) (hhit : ∀ q, 0 ≤ onHit q ∧ onHit q ≤ 1)
    (dir : Vec3 ℝ) (S : Collection ℝ) (maxDist : ℝ) (n : Nat) (pos : Vec3 ℝ) (sumDist : ℝ) :
    0 ≤ Camera.marchLoop Real.sqrt onHit dir S maxDist n pos sumDist ∧
      Camera.marchLoop Real.sqrt onHit dir S maxDist n pos sumDist ≤ 1 := by
  induction n generalizing pos sumDist with
  | zero => unfold Camera.marchLoop; norm_num
  | succ n ih =>
    unfold Camera.marchLoop
    dsimp only
    split_ifs
    · norm_num
    · norm_num
    · exact hhit pos
    · exact ih _ _

theorem Vec3.len_axis_x (t : ℝ) : Vec3.len Real.sqrt (⟨t, 0, 0⟩ : Vec3 ℝ) = |t| := by
  simp [Vec3.len, Real.sqrt_mul_self_eq_abs]

theorem Vec3.len_axis_z (t : ℝ) : Vec3.len Real.sqrt (⟨0, 0, t⟩ : Vec3 ℝ) = |t| := by
  simp [Vec3.len, Real.sqrt_mul_self_eq_abs]

/-- The scene normal of a single sphere whose distance is below `1000000`. -/
theorem single_circle_getNormal (c p : Vec3 ℝ) (r : ℝ)
    (h : (p - c).len Real.sqrt - r < 1000000) :
    (Collection.mk [Shape.circle c r]).getNormal Real.sqrt p
      = (p - c).normalize Real.sqrt := by
  simp only [Collection.getNormal, List.foldl_cons, List.foldl_nil, Collection.getNormalStep,
    Shape.circle, Shape.getDist, Shape.getNormal, Shape.getDistReal, Shape.getNormalReal,
    Bool.false_eq_true, if_false]
  rw [if_pos h]

/-- The unit sphere at the origin seen from its near pole `(0, 0, -1)` with the light at
`(3, 0, -1)`: the light direction is tangent (`dot = 0`) and `getLight` is `0.2`. -/
theorem getLight_tangent_value :
    (Collection.mk [Shape.circle (⟨0, 0, 0⟩ : Vec3 ℝ) 1]).getNormal Real.sqrt ⟨0, 0, -1⟩
      = ⟨0, 0, -1⟩ ∧
    ((⟨3, 0, -1⟩ : Vec3 ℝ) - ⟨0, 0, -1⟩).len Real.sqrt = 3 ∧
    ({ (Camera.new 360 100 : Camera ℝ) with light := ⟨3, 0, -1⟩ }).getLight Real.sqrt
      ⟨0, 0, -1⟩ (Collection.mk [Shape.circle ⟨0, 0, 0⟩ 1]) = 0.2 := by
  have e1 : ((⟨0, 0, -1⟩ : Vec3 ℝ) - ⟨0, 0, 0⟩) = ⟨0, 0, -1⟩ := by
    ext <;> simp
  have l1 : ((⟨0, 0, -1⟩ : Vec3 ℝ) - ⟨0, 0, 0⟩).len Real.sqrt = 1 := by
    rw [e1, Vec3.len_axis_z]; norm_num
  have hn : (Collection.mk [Shape.circle (⟨0, 0, 0⟩ : Vec3 ℝ) 1]).getNormal Real.sqrt
      ⟨0, 0, -1⟩ = ⟨0, 0, -1⟩ := by
    rw [single_circle_getNormal _ _ _ (by rw [l1]; norm_num)]
    unfold Vec3.normalize
    rw [l1, e1]
    ext <;> simp
  have e2 : ((⟨3, 0, -1⟩ : Vec3 ℝ) - ⟨0, 0, -1⟩) = ⟨3, 0, 0⟩ := by
    ext <;> simp
  have l2 : ((⟨3, 0, -1⟩ : Vec3 ℝ) - ⟨0, 0, -1⟩).len Real.sqrt = 3 := by
    rw [e2, Vec3.len_axis_x]; norm_num
  refine ⟨hn, l2, ?_⟩
  unfold Camera.getLight
  simp only [hn, l2]
  norm_num [Camera.new, Vec3.dot, Vec3.scale, e2]

/-- The definition of `getLight` in terms of its locals `dot` and `val`. -/
theorem getLight_eq_scaled (cam : Camera ℝ) (S : Collection ℝ) (p : Vec3 ℝ) :
    cam.getLight Real.sqrt p S =
      max 0 (cam.getLightVal Real.sqrt p S *
        ((if cam.getLightDot Real.sqrt p S > 0 then
            1 - Camera.marchLoop Real.sqrt (fun _ => 1)
              ((cam.light - p).scale (1 / (cam.light - p).len Real.sqrt)) S
              ((cam.light - p).len Real.sqrt) 100
              (p + (S.getNormal Real.sqrt p).scale 0.01) 0
          else 0) * 0.6 + 0.4)) := by
  unfold Camera.getLight Camera.getLightVal Camera.getLightDot
  rfl

/-- C11 (as amended): at every point where the facing test fails (`dot <= 0`), the factor
by which `Camera::getLight` scales the brightness `val` is `0.4` (the same as for a fully
shadowed point), whatever the occluders: `getLight` returns `max(0, val * 0.4)` without
marching a shadow ray, where `val = (dot + 1) / 2` minus the fog term. -/
theorem Camera.getLight_not_facing (cam : Camera ℝ) (S : Collection ℝ) (p : Vec3 ℝ)
    (hdot : cam.getLightDot Real.sqrt p S ≤ 0) :
    cam.getLight Real.sqrt p S = max 0 (cam.getLightVal Real.sqrt p S * 0.4) := by
  rw [getLight_eq_scaled, if_neg (not_lt.mpr hdot)]
  norm_num

/-- C11 (witness): the unit sphere at the origin, the point `(0, 0, -1)` and the light at
`(3, 0, -1)`, where `dot = 0`. -/
theorem Camera.getLight_not_facing_witness :
    ({ (Camera.new 360 100 : Camera ℝ) with light := ⟨3, 0, -1⟩ } : Camera ℝ).getLightDot
      Real.sqrt ⟨0, 0, -1⟩ (Collection.mk [Shape.circle ⟨0, 0, 0⟩ 1]) ≤ 0 ∧
    ({ (Camera.new 360 100 : Camera ℝ) with light := ⟨3, 0, -1⟩ } : Camera ℝ).getLight
      Real.sqrt ⟨0, 0, -1⟩ (Collection.mk [Shape.circle ⟨0, 0, 0⟩ 1]) =
      max 0 (({ (Camera.new 360 100 : Camera ℝ) with light := ⟨3, 0, -1⟩ } :
        Camera ℝ).getLightVal Real.sqrt ⟨0, 0, -1⟩
          (Collection.mk [Shape.circle ⟨0, 0, 0⟩ 1]) * 0.4) :=
  have hdot : ({ (Camera.new 360 100 : Camera ℝ) with light := ⟨3, 0, -1⟩ } :
      Camera ℝ).getLightDot Real.sqrt ⟨0, 0, -1⟩
        (Collection.mk [Shape.circle ⟨0, 0, 0⟩ 1]) ≤ 0 := by
    unfold Camera.getLightDot
    rw [getLight_tangent_value.1]
    simp [Vec3.dot]
  ⟨hdot, Camera.getLight_not_facing _ _ _ hdot⟩

/-- C11 (counterexample): for the unit sphere at the origin, the surface point
`(0, 0, -1)` and the light at `(3, 0, -1)`, the facing test fails (`dot = 0`) and yet
`getLight` returns `0.2`, not `0`. -/
theorem Camera.getLight_not_facing_nonzero :
    ({ (Camera.new 360 100 : Camera ℝ) with light := ⟨3, 0, -1⟩ } : Camera ℝ).getLightDot
      Real.sqrt ⟨0, 0, -1⟩ (Collection.mk [Shape.circle ⟨0, 0, 0⟩ 1]) ≤ 0 ∧
    ({ (Camera.new 360 100 : Camera ℝ) with light := ⟨3, 0, -1⟩ } : Camera ℝ).getLight
      Real.sqrt ⟨0, 0, -1⟩ (Collection.mk [Shape.circle ⟨0, 0, 0⟩ 1]) = 0.2 ∧
    ({ (Camera.new 360 100 : Camera ℝ) with light := ⟨3, 0, -1⟩ } : Camera ℝ).getLight
      Real.sqrt ⟨0, 0, -1⟩ (Collection.mk [Shape.circle ⟨0, 0, 0⟩ 1]) ≠ 0 := by
  refine ⟨?_, getLight_tangent_value.2.2, ?_⟩
  · unfold Camera.getLightDot
    rw [getLight_tangent_value.1]
    simp [Vec3.dot]
  · rw [getLight_tangent_value.2.2]
    norm_num


/-- The scene distance of the unit sphere at the origin on the `z` axis. -/
theorem unit_sphere_getDist_z (z : ℝ) (hz : |z| - 1 ≤ 1000000) :
    (Collection.mk [Shape.circle (⟨0, 0, 0⟩ : Vec3 ℝ) 1]).getDist Real.sqrt ⟨0, 0, z⟩
      = |z| - 1 := by
  have e : ((⟨0, 0, z⟩ : Vec3 ℝ) - ⟨0, 0, 0⟩) = ⟨0, 0, z⟩ := by
    ext <;> simp
  have l : ((⟨0, 0, z⟩ : Vec3 ℝ) - ⟨0, 0, 0⟩).len Real.sqrt = |z| := by
    rw [e, Vec3.len_axis_z]
  rw [single_circle_getDist _ _ _ (by rw [l]; exact hz), l]

/-- The central ray from `(0, 0, -2)` along `(0, 0, 1)` hits the unit sphere at the origin
on the second iteration of the loop of `march`, at the near pole `(0, 0, -1)`. -/
theorem marchLoop_hits_near_pole (onHit : Vec3 ℝ → ℝ) (n : Nat) (maxDist : ℝ)
    (hmax : 1 ≤ maxDist) :
    Camera.marchLoop Real.sqrt onHit ⟨0, 0, 1⟩
      (Collection.mk [Shape.circle (⟨0, 0, 0⟩ : Vec3 ℝ) 1]) maxDist (n + 2) ⟨0, 0, -2⟩ 0
      = onHit ⟨0, 0, -1⟩ := by
  have d0 : (Collection.mk [Shape.circle (⟨0, 0, 0⟩ : Vec3 ℝ) 1]).getDist Real.sqrt
      ⟨0, 0, -2⟩ = 1 := by
    rw [unit_sphere_getDist_z _ (by norm_num)]; norm_num
  have d1 : (Collection.mk [Shape.circle (⟨0, 0, 0⟩ : Vec3 ℝ) 1]).getDist Real.sqrt
      ⟨0, 0, -1⟩ = 0 := by
    rw [unit_sphere_getDist_z _ (by norm_num)]; norm_num
  have e : ((⟨0, 0, -2⟩ : Vec3 ℝ) + (⟨0, 0, 1⟩ : Vec3 ℝ).scale 1) = ⟨0, 0, -1⟩ := by
    ext <;> norm_num
  have a1 : ¬ (0 + 1 > maxDist) := by intro h; linarith
  have a2 : ¬ ((1 : ℝ) > maxDist) := by intro h; linarith
  have a3 : ¬ ((1 : ℝ) < 0.01) := by norm_num
  have b1 : ¬ (0 + 1 + 0 > maxDist) := by intro h; linarith
  have b2 : ¬ ((0 : ℝ) > maxDist) := by intro h; linarith
  have b3 : (0 : ℝ) < 0.01 := by norm_num
  rw [Camera.marchLoop]
  simp only [d0, a1, a2, a3, if_false, e]
  rw [Camera.marchLoop]
  simp only [d1, b1, b2, b3, if_false, if_true]

/-- With the light at `(0, 0, -10)`, in front of the near pole `(0, 0, -1)` of the unit
sphere, the pole is fully lit: `getLight` is `1`. -/
theorem getLight_near_pole_front :
    ({ (Camera.new 360 100 : Camera ℝ) with position := ⟨0, 0, -5⟩, light := ⟨0, 0, -10⟩ } :
      Camera ℝ).getLight Real.sqrt ⟨0, 0, -1⟩ (Collection.mk [Shape.circle ⟨0, 0, 0⟩ 1])
      = 1 := by
  have hn := getLight_tangent_value.1
  have e2 : ((⟨0, 0, -10⟩ : Vec3 ℝ) - ⟨0, 0, -1⟩) = ⟨0, 0, -9⟩ := by
    ext <;> norm_num
  have l2 : (⟨0, 0, -9⟩ : Vec3 ℝ).len Real.sqrt = 9 := by
    rw [Vec3.len_axis_z]; norm_num
  have e3 : (⟨0, 0, -9⟩ : Vec3 ℝ).scale (1 / 9) = ⟨0, 0, -1⟩ := by
    ext <;> norm_num
  have e4 : ((⟨0, 0, -1⟩ : Vec3 ℝ) + (⟨0, 0, -1⟩ : Vec3 ℝ).scale 0.01) = ⟨0, 0, -1.01⟩ := by
    ext <;> norm_num
  have hshadow : Camera.marchLoop Real.sqrt (fun _ => 1) ⟨0, 0, -1⟩
      (Collection.mk [Shape.circle (⟨0, 0, 0⟩ : Vec3 ℝ) 1]) 9 100 ⟨0, 0, -1.01⟩ 0 = 0 := by
    apply marchLoop_eq_zero_of_clear _ _ ⟨0, 0, -1.01⟩ ⟨0, 0, -1⟩ 9 _ 100 _ 0 _ le_rfl
      (by norm_num)
    · intro t ht0 ht9
      have e5 : ((⟨0, 0, -1.01⟩ : Vec3 ℝ) + (⟨0, 0, -1⟩ : Vec3 ℝ).scale t)
          = ⟨0, 0, -(1.01 + t)⟩ := by
        ext <;> norm_num
        ring
      have habs : |(-(1.01 + t) : ℝ)| = 1.01 + t := by
        rw [abs_neg, abs_of_nonneg (by linarith)]
      rw [e5, unit_sphere_getDist_z _ (by rw [habs]; linarith), habs]
      linarith
    · ext <;> norm_num
  rw [getLight_eq_scaled]
  unfold Camera.getLightVal Camera.getLightDot
  simp only [Camera.new, hn, e2, l2, e3, e4, hshadow]
  norm_num [Vec3.dot]

/-- With the light at `(0, 0, 5)`, behind the sphere as seen from the near pole
`(0, 0, -1)`, the pole faces away from the light (`dot = -1`): `getLight` is `0`. -/
theorem getLight_near_pole_back :
    ({ (Camera.new 360 100 : Camera ℝ) with position := ⟨0, 0, -5⟩, light := ⟨0, 0, 5⟩ } :
      Camera ℝ).getLight Real.sqrt ⟨0, 0, -1⟩ (Collection.mk [Shape.circle ⟨0, 0, 0⟩ 1])
      = 0 := by
  have hn := getLight_tangent_value.1
  have e2 : ((⟨0, 0, 5⟩ : Vec3 ℝ) - ⟨0, 0, -1⟩) = ⟨0, 0, 6⟩ := by
    ext <;> norm_num
  have l2 : (⟨0, 0, 6⟩ : Vec3 ℝ).len Real.sqrt = 6 := by
    rw [Vec3.len_axis_z]; norm_num
  rw [getLight_eq_scaled]
  unfold Camera.getLightVal Camera.getLightDot
  simp only [Camera.new, hn, e2, l2]
  norm_num [Vec3.dot, Vec3.scale]


/-- The start point of the central ray: `position + dir * minDist` (main.cpp:308) for the
camera at `(0, 0, -5)`, the direction `(0, 0, 1)` and `minDist = 3`. -/
theorem central_ray_start :
    ((⟨0, 0, -5⟩ : Vec3 ℝ) + (⟨0, 0, 1⟩ : Vec3 ℝ).scale 3) = ⟨0, 0, -2⟩ := by
  ext <;> norm_num

/-- The brightness of the central ray with the light at `(0, 0, -10)` is `1`. -/
theorem central_ray_brightness_front :
    ({ (Camera.new 360 100 : Camera ℝ) with position := ⟨0, 0, -5⟩, light := ⟨0, 0, -10⟩ } :
      Camera ℝ).march Real.sqrt ((⟨0, 0, -5⟩ : Vec3 ℝ) + (⟨0, 0, 1⟩ : Vec3 ℝ).scale 3)
      ⟨0, 0, 1⟩ (Collection.mk [Shape.circle ⟨0, 0, 0⟩ 1]) 500 true = 1 := by
  unfold Camera.march
  rw [central_ray_start, marchLoop_hits_near_pole _ 98 500 (by norm_num)]
  simpa using getLight_near_pole_front

/-- The brightness of the central ray with the light at `(0, 0, 5)` is `0`. -/
theorem central_ray_brightness_back :
    ({ (Camera.new 360 100 : Camera ℝ) with position := ⟨0, 0, -5⟩, light := ⟨0, 0, 5⟩ } :
      Camera ℝ).march Real.sqrt ((⟨0, 0, -5⟩ : Vec3 ℝ) + (⟨0, 0, 1⟩ : Vec3 ℝ).scale 3)
      ⟨0, 0, 1⟩ (Collection.mk [Shape.circle ⟨0, 0, 0⟩ 1]) 500 true = 0 := by
  unfold Camera.march
  rw [central_ray_start, marchLoop_hits_near_pole _ 98 500 (by norm_num)]
  simpa using getLight_near_pole_back

/-- C12 (as amended): with the scene a single sphere of radius `1` at the origin, the
camera at `(0, 0, -5)` and the default `minDist = 3`, `maxViewDist = 500`, the march of the
central ray (direction `(0, 0, 1)`, started at `position + dir * minDist`) detects its hit
at the sphere's near pole `(0, 0, -1)`; with the light at `(0, 0, -10)` its brightness is
`1`, which is `> 0` and strictly greater than the brightness `0` of the same march with the
light at `(0, 0, 5)`. -/
theorem Camera.central_ray_front_light_brighter :
    (∀ (onHit : Vec3 ℝ → ℝ) (n : Nat),
      Camera.marchLoop Real.sqrt onHit ⟨0, 0, 1⟩
        (Collection.mk [Shape.circle (⟨0, 0, 0⟩ : Vec3 ℝ) 1])
        (Camera.new 360 100 : Camera ℝ).maxViewDist (n + 2)
        ((⟨0, 0, -5⟩ : Vec3 ℝ) + (⟨0, 0, 1⟩ : Vec3 ℝ).scale
          (Camera.new 360 100 : Camera ℝ).minDist) 0
        = onHit ⟨0, 0, -1⟩) ∧
    ({ (Camera.new 360 100 : Camera ℝ) with position := ⟨0, 0, -5⟩, light := ⟨0, 0, -10⟩ } :
      Camera ℝ).march Real.sqrt ((⟨0, 0, -5⟩ : Vec3 ℝ) + (⟨0, 0, 1⟩ : Vec3 ℝ).scale 3)
      ⟨0, 0, 1⟩ (Collection.mk [Shape.circle ⟨0, 0, 0⟩ 1]) 500 true = 1 ∧
    ({ (Camera.new 360 100 : Camera ℝ) with position := ⟨0, 0, -5⟩, light := ⟨0, 0, 5⟩ } :
      Camera ℝ).march Real.sqrt ((⟨0, 0, -5⟩ : Vec3 ℝ) + (⟨0, 0, 1⟩ : Vec3 ℝ).scale 3)
      ⟨0, 0, 1⟩ (Collection.mk [Shape.circle ⟨0, 0, 0⟩ 1]) 500 true = 0 ∧
    ({ (Camera.new 360 100 : Camera ℝ) with position := ⟨0, 0, -5⟩, light := ⟨0, 0, 5⟩ } :
      Camera ℝ).march Real.sqrt ((⟨0, 0, -5⟩ : Vec3 ℝ) + (⟨0, 0, 1⟩ : Vec3 ℝ).scale 3)
      ⟨0, 0, 1⟩ (Collection.mk [Shape.circle ⟨0, 0, 0⟩ 1]) 500 true <
    ({ (Camera.new 360 100 : Camera ℝ) with position := ⟨0, 0, -5⟩, light := ⟨0, 0, -10⟩ } :
      Camera ℝ).march Real.sqrt ((⟨0, 0, -5⟩ : Vec3 ℝ) + (⟨0, 0, 1⟩ : Vec3 ℝ).scale 3)
      ⟨0, 0, 1⟩ (Collection.mk [Shape.circle ⟨0, 0, 0⟩ 1]) 500 true := by
  refine ⟨?_, central_ray_brightness_front, central_ray_brightness_back, ?_⟩
  · intro onHit n
    simp only [Camera.new]
    rw [central_ray_start]
    exact marchLoop_hits_near_pole onHit n 500 (by norm_num)
  · rw [central_ray_brightness_front, central_ray_brightness_back]
    norm_num

/-- C12 (counterexample): in the configuration of the claim the brightness with the light
at `(0, 0, -10)` is not strictly less than the brightness with the light at `(0, 0, 5)`. -/
theorem Camera.central_ray_front_light_not_darker :
    ¬ (
      ({ (Camera.new 360 100 : Camera ℝ) with position := ⟨0, 0, -5⟩, light := ⟨0, 0, -10⟩ } :
        Camera ℝ).march Real.sqrt ((⟨0, 0, -5⟩ : Vec3 ℝ) + (⟨0, 0, 1⟩ : Vec3 ℝ).scale 3)
        ⟨0, 0, 1⟩ (Collection.mk [Shape.circle ⟨0, 0, 0⟩ 1]) 500 true <
      ({ (Camera.new 360 100 : Camera ℝ) with position := ⟨0, 0, -5⟩, light := ⟨0, 0, 5⟩ } :
        Camera ℝ).march Real.sqrt ((⟨0, 0, -5⟩ : Vec3 ℝ) + (⟨0, 0, 1⟩ : Vec3 ℝ).scale 3)
        ⟨0, 0, 1⟩ (Collection.mk [Shape.circle ⟨0, 0, 0⟩ 1]) 500 true) := by
  rw [central_ray_brightness_front, central_ray_brightness_back]
  norm_num


theorem paletteSize_eq : paletteSize = 26 := by decide

theorem palette_toList_length : palette.toList.length = 26 := by decide

/-- C13: the palette index `ceil(light * (paletteSize - 1))` computed by `getChar` is
monotonically non-decreasing in the brightness: for all `a <= b` the index of `a` is at
most the index of `b`. -/
theorem getCharIndex_monotone (a b : ℝ) (hab : a ≤ b) : getCharIndex a ≤ getCharIndex b := by
  unfold getCharIndex
  apply Int.ceil_mono
  exact mul_le_mul_of_nonneg_right hab (Nat.cast_nonneg _)

/-- C13 (witness): the brightness values `0.2` and `0.7`. -/
theorem getCharIndex_monotone_witness :
    (0.2 : ℝ) ≤ 0.7 ∧ getCharIndex (0.2 : ℝ) ≤ getCharIndex (0.7 : ℝ) :=
  ⟨by norm_num, getCharIndex_monotone 0.2 0.7 (by norm_num)⟩

/-- The index of a brightness in `[0, 1]` lies in `0..paletteSize - 1`. -/
theorem getCharIndex_mem_range (b : ℝ) (h0 : 0 ≤ b) (h1 : b ≤ 1) :
    0 ≤ getCharIndex b ∧ getCharIndex b ≤ ((paletteSize - 1 : Nat) : Int) := by
  unfold getCharIndex
  have hc : (0 : ℝ) ≤ ((paletteSize - 1 : Nat) : ℝ) := Nat.cast_nonneg _
  constructor
  · exact Int.ceil_nonneg (mul_nonneg h0 hc)
  · rw [Int.ceil_le]
    push_cast
    calc b * ((paletteSize - 1 : Nat) : ℝ) ≤ 1 * ((paletteSize - 1 : Nat) : ℝ) :=
          mul_le_mul_of_nonneg_right h1 hc
      _ = ((paletteSize - 1 : Nat) : ℝ) := one_mul _

/-- C14 (as amended): `getChar` does not clamp; for every brightness `b` with
`0 <= b <= 1` the index `ceil(b * (paletteLength - 1))` it uses equals
`clamp(ceil(b * (paletteLength - 1)), 0, paletteLength - 1)`, lies within
`0..paletteLength - 1`, and the lookup yields a character of the palette. -/
theorem getChar_index_in_range (b : ℝ) (h0 : 0 ≤ b) (h1 : b ≤ 1) :
    getCharIndex b = Spec.paletteIndex b ∧
    0 ≤ getCharIndex b ∧ getCharIndex b ≤ (paletteSize : Int) - 1 ∧
    ∃ c ∈ palette.toList, getChar b = some c := by
  obtain ⟨hlo, hhi⟩ := getCharIndex_mem_range b h0 h1
  have hhi26 : getCharIndex b ≤ 25 := by
    have := hhi; rw [paletteSize_eq] at this; exact_mod_cast this
  refine ⟨?_, hlo, ?_, ?_⟩
  · unfold Spec.paletteIndex
    have e : getCharIndex b = ⌈b * ((paletteSize - 1 : Nat) : ℝ)⌉ := rfl
    rw [← e, min_eq_left hhi, max_eq_right hlo]
  · rw [paletteSize_eq]; norm_num; exact hhi26
  · have hlt : (getCharIndex b).toNat < palette.toList.length := by
      rw [palette_toList_length]
      omega
    refine ⟨palette.toList[(getCharIndex b).toNat], List.getElem_mem hlt, ?_⟩
    unfold getChar
    rw [if_pos hlo, List.getElem?_append_left hlt, List.getElem?_eq_getElem hlt]

/-- C14 (witness): the brightness `0.5`. -/
theorem getChar_index_in_range_witness :
    (0 : ℝ) ≤ 0.5 ∧ (0.5 : ℝ) ≤ 1 ∧ getCharIndex (0.5 : ℝ) = Spec.paletteIndex (0.5 : ℝ) :=
  ⟨by norm_num, by norm_num,
    (getChar_index_in_range 0.5 (by norm_num) (by norm_num)).1⟩

/-- C14 (counterexample): for the brightness `2` the index used by `getChar` is `50`, not
the clamped value `25`, and the lookup is outside the palette array. -/
theorem getChar_index_unclamped :
    getCharIndex (2 : ℝ) = 50 ∧ Spec.paletteIndex (2 : ℝ) = 25 ∧
    getCharIndex (2 : ℝ) ≠ Spec.paletteIndex (2 : ℝ) ∧ getChar (2 : ℝ) = none := by
  have hi : getCharIndex (2 : ℝ) = 50 := by
    unfold getCharIndex
    rw [paletteSize_eq]
    have : (2 : ℝ) * ((26 - 1 : Nat) : ℝ) = ((50 : Int) : ℝ) := by norm_num
    rw [this, Int.ceil_intCast]
  have hs : Spec.paletteIndex (2 : ℝ) = 25 := by
    unfold Spec.paletteIndex
    have e : ⌈(2 : ℝ) * ((paletteSize - 1 : Nat) : ℝ)⌉ = 50 := hi
    rw [e, paletteSize_eq]
    decide
  refine ⟨hi, hs, by rw [hi, hs]; decide, ?_⟩
  unfold getChar
  rw [hi]
  decide


/-- A vector of non-zero length is normalised to a vector of length `1`. -/
theorem Vec3.len_normalize_eq_one (v : Vec3 ℝ) (hv : v.len Real.sqrt ≠ 0) :
    (v.normalize Real.sqrt).len Real.sqrt = 1 := by
  have e : v.normalize Real.sqrt = v.scale (1 / v.len Real.sqrt) := rfl
  have hpos : 0 < v.len Real.sqrt := lt_of_le_of_ne (Vec3.len_nonneg v) (Ne.symm hv)
  rw [e, Vec3.len_scale, abs_of_pos (by positivity)]
  field_simp

/-- One planar rotation preserves the sum of squares. -/
theorem rot2_sq (a b c s : ℝ) (h : c * c + s * s = 1) :
    (a * c - b * s) * (a * c - b * s) + (b * c + a * s) * (b * c + a * s)
      = a * a + b * b := by
  linear_combination (a * a + b * b) * h

/-- The three rotations of `render` preserve the sum of squares of the components when
each coefficient pair satisfies `c*c + s*s = 1`. -/
theorem rotateDir_sq (cx sx cy sy cz sz : ℝ) (hx : cx * cx + sx * sx = 1)
    (hy : cy * cy + sy * sy = 1) (hz : cz * cz + sz * sz = 1) (v : Vec3 ℝ) :
    (Camera.rotateDir cx sx cy sy cz sz v).x * (Camera.rotateDir cx sx cy sy cz sz v).x
      + (Camera.rotateDir cx sx cy sy cz sz v).y * (Camera.rotateDir cx sx cy sy cz sz v).y
      + (Camera.rotateDir cx sx cy sy cz sz v).z * (Camera.rotateDir cx sx cy sy cz sz v).z
      = v.x * v.x + v.y * v.y + v.z * v.z := by
  simp only [Camera.rotateDir]
  have h1 := rot2_sq v.x v.y cz sz hz
  have h2 := rot2_sq (v.y * cz + v.x * sz) v.z cy sy hy
  have h3 := rot2_sq (v.x * cz - v.y * sz) (v.z * cy + (v.y * cz + v.x * sz) * sy) cx sx hx
  linear_combination h1 + h2 + h3

theorem cos_sin_sq (t : ℝ) : Real.cos t * Real.cos t + Real.sin t * Real.sin t = 1 := by
  have := Real.cos_sq_add_sin_sq t
  nlinarith

/-- The rotation of `render` with zero angles is the identity. -/
theorem rotateDir_zero_angles (v : Vec3 ℝ) :
    Camera.rotateDir (Real.cos (-0)) (Real.sin (-0)) (Real.cos (-0)) (Real.sin (-0))
      (Real.cos (-0)) (Real.sin (-0)) v = v := by
  simp [Camera.rotateDir]

/-- C15: with camera angles `yaw = pitch = roll = 0` the three-stage rotation of
`Camera::render` is the identity, so for every pixel `(x, y)` the direction passed to
`march` is `normalize((rx, ry, 1))` with `rx = (x/(width-1) - 0.5) * tan(fovX/2)` and
`ry = (y/(height-1) - 0.5) * tan(fovY/2)`. -/
theorem Camera.rayDir_zero_angles (cam : Camera ℝ) (fovX fovY : ℝ) (x y : Int)
    (hangle : cam.angle = ⟨0, 0, 0⟩) :
    (∀ v : Vec3 ℝ, cam.rotate Real.cos Real.sin v = v) ∧
    cam.rayDir Real.sqrt Real.cos Real.sin Real.tan fovX fovY x y =
      (⟨((x : ℝ) / ((cam.width - 1 : Int) : ℝ) - 0.5) * Real.tan (fovX / 2),
        ((y : ℝ) / ((cam.height - 1 : Int) : ℝ) - 0.5) * Real.tan (fovY / 2), 1⟩ :
          Vec3 ℝ).normalize Real.sqrt := by
  constructor
  · intro v
    unfold Camera.rotate
    rw [hangle]
    exact rotateDir_zero_angles v
  · unfold Camera.rayDir Camera.rotate
    rw [hangle]
    exact rotateDir_zero_angles _

/-- C15 (witness): the camera built by the constructor (all angles `0`), pixel
`(100, 30)`, with both fields of view equal to `1`. -/
theorem Camera.rayDir_zero_angles_witness :
    (Camera.new 360 100 : Camera ℝ).angle = ⟨0, 0, 0⟩ ∧
    (Camera.new 360 100 : Camera ℝ).rayDir Real.sqrt Real.cos Real.sin Real.tan 1 1 100 30 =
      (⟨(((100 : Int) : ℝ) / (((Camera.new 360 100 : Camera ℝ).width - 1 : Int) : ℝ) - 0.5)
          * Real.tan (1 / 2),
        (((30 : Int) : ℝ) / (((Camera.new 360 100 : Camera ℝ).height - 1 : Int) : ℝ) - 0.5)
          * Real.tan (1 / 2), 1⟩ : Vec3 ℝ).normalize Real.sqrt :=
  ⟨rfl, (Camera.rayDir_zero_angles (Camera.new 360 100) 1 1 100 30 rfl).2⟩


/-- The concatenation of `h` rows of the same length `m` has length `h * m`. -/
theorem flatMap_rows_length {α : Type} (f : Nat → List α) (m : Nat)
    (hf : ∀ y, (f y).length = m) (h : Nat) :
    ((List.range h).flatMap f).length = h * m := by
  induction h with
  | zero => simp
  | succ h ih =>
    rw [List.range_succ, List.flatMap_append, List.length_append, ih]
    simp [hf, Nat.succ_mul]

/-- In the concatenation of `h` rows of the same length `m`, the entry `y * m + x` is the
entry `x` of row `y`. -/
theorem flatMap_rows_getElem_opt {α : Type} (f : Nat → List α) (m : Nat)
    (hf : ∀ y, (f y).length = m) (h y x : Nat) (hy : y < h) (hx : x < m) :
    ((List.range h).flatMap f)[y * m + x]? = (f y)[x]? := by
  induction h with
  | zero => omega
  | succ h ih =>
    rw [List.range_succ, List.flatMap_append]
    have hlen := flatMap_rows_length f m hf h
    by_cases hyh : y < h
    · have hidx : y * m + x < ((List.range h).flatMap f).length := by
        rw [hlen]
        calc y * m + x < y * m + m := by omega
          _ = (y + 1) * m := by ring
          _ ≤ h * m := Nat.mul_le_mul_right m hyh
      rw [List.getElem?_append_left hidx]
      exact ih hyh
    · have hyeq : y = h := by omega
      subst hyeq
      have hidx : ((List.range y).flatMap f).length ≤ y * m + x := by
        rw [hlen]; omega
      rw [List.getElem?_append_right hidx, hlen]
      simp


/-- Every row stored by `render` has `width + 1` characters. -/
theorem render_row_length (cell : Int → Int → Option Char) (w : Nat) (y : Nat) :
    ((List.range w).map (fun (x : Nat) => cell (x : Int) (y : Int))
      ++ [some (Char.ofNat 10)]).length
      = w + 1 := by
  simp

/-- The number of stores executed by `render`: `height` rows of `width + 1` stores. -/
theorem renderStores_length (cam : Camera ℝ) (S : Collection ℝ) (fovX fovY : ℝ) :
    (cam.renderStores Real.sqrt Real.cos Real.sin Real.tan S fovX fovY).length
      = cam.height.toNat * (cam.width.toNat + 1) := by
  unfold Camera.renderStores
  rw [flatMap_rows_length _ (cam.width.toNat + 1) (fun y => render_row_length _ _ y)]

/-- The stores of `render` as rows: the store number `y * (width + 1) + x` is the cell
`(x, y)` for `x < width`, and the line break for `x = width`. -/
theorem renderStores_getElem_opt (cam : Camera ℝ) (S : Collection ℝ) (fovX fovY : ℝ)
    (x y : Nat) (hy : y < cam.height.toNat) :
    (x < cam.width.toNat →
      (cam.renderStores Real.sqrt Real.cos Real.sin Real.tan S fovX fovY)[
          y * (cam.width.toNat + 1) + x]?
        = some (cam.renderCell Real.sqrt Real.cos Real.sin Real.tan S fovX fovY x y)) ∧
    (cam.renderStores Real.sqrt Real.cos Real.sin Real.tan S fovX fovY)[
        y * (cam.width.toNat + 1) + cam.width.toNat]? = some (some (Char.ofNat 10)) := by
  unfold Camera.renderStores
  constructor
  · intro hx
    rw [flatMap_rows_getElem_opt _ (cam.width.toNat + 1)
      (fun y => render_row_length _ _ y) _ y x hy (by omega)]
    rw [List.getElem?_append_left (by simp [hx])]
    simp [List.getElem?_range hx]
  · rw [flatMap_rows_getElem_opt _ (cam.width.toNat + 1)
      (fun y => render_row_length _ _ y) _ y cam.width.toNat hy (by omega)]
    rw [List.getElem?_append_right (by simp)]
    simp

/-- An integer in the range of `int` is left unchanged by the 32-bit reduction. -/
theorem wrapInt32_of_mem_range (n : Int) (h0 : -2147483648 ≤ n) (h1 : n ≤ 2147483647) :
    wrapInt32 n = n := by
  unfold wrapInt32
  omega

/-- Without overflow the constructor's product is the exact `(width + 1) * height`. -/
theorem bufferSize_of_no_overflow (cam : Camera ℝ) (hw : 0 ≤ cam.width)
    (hh : 0 ≤ cam.height) (hfit : (cam.width + 1) * cam.height ≤ 2147483647) :
    cam.bufferSize = (cam.width + 1) * cam.height := by
  unfold Camera.bufferSize
  have hprod : 0 ≤ (cam.width + 1) * cam.height := mul_nonneg (by omega) hh
  rcases eq_or_lt_of_le hh with h0 | hpos
  · rw [← h0]
    simp [wrapInt32]
  · have hle : cam.width + 1 ≤ (cam.width + 1) * cam.height := by nlinarith
    rw [wrapInt32_of_mem_range (cam.width + 1) (by omega) (by omega)]
    exact wrapInt32_of_mem_range _ (by omega) hfit

/-- C16 (as amended): for every camera with `width >= 0`, `height >= 0` (in particular
`>= 2`) whose product `(width + 1) * height` fits in an `int` (at most `2147483647`), every
scene and every camera state, `Camera::render` stays inside the buffer and stores exactly
`(width + 1) * height = bufferSize` characters; for every row `y` the character at index
`y * (width + 1) + width` is a line break; every cell with `x` in `{0, width - 1}` is `|`,
every other cell with `y` in `{0, height - 1}` is `-`, and every remaining cell of the
crosshair is `#`, whatever the scene, the light and the camera pose. -/
theorem Camera.render_frame_and_crosshair (cam : Camera ℝ) (S : Collection ℝ)
    (fovX fovY : ℝ) (hw : 0 ≤ cam.width) (hh : 0 ≤ cam.height)
    (hfit : (cam.width + 1) * cam.height ≤ 2147483647) :
    ∃ buf : List (Option Char),
      cam.render Real.sqrt Real.cos Real.sin Real.tan S fovX fovY = some buf ∧
      ((buf.length : Int) = (cam.width + 1) * cam.height) ∧
      ((buf.length : Int) = cam.bufferSize) ∧
      (∀ y : Nat, (y : Int) < cam.height →
        buf[y * (cam.width.toNat + 1) + cam.width.toNat]? = some (some (Char.ofNat 10))) ∧
      (∀ x y : Nat, (x : Int) < cam.width → (y : Int) < cam.height →
        ((x : Int) = 0 ∨ (x : Int) = cam.width - 1) →
        buf[y * (cam.width.toNat + 1) + x]? = some (some '|')) ∧
      (∀ x y : Nat, (x : Int) < cam.width → (y : Int) < cam.height →
        ¬ ((x : Int) = 0 ∨ (x : Int) = cam.width - 1) →
        ((y : Int) = 0 ∨ (y : Int) = cam.height - 1) →
        buf[y * (cam.width.toNat + 1) + x]? = some (some '-')) ∧
      (∀ x y : Nat, (x : Int) < cam.width → (y : Int) < cam.height →
        ¬ ((x : Int) = 0 ∨ (x : Int) = cam.width - 1) →
        ¬ ((y : Int) = 0 ∨ (y : Int) = cam.height - 1) →
        (((x : Int) = Int.tdiv cam.width 2 ∧ |(y : Int) - Int.tdiv cam.height 2| ≤ 2) ∨
          ((y : Int) = Int.tdiv cam.height 2 ∧ |(x : Int) - Int.tdiv cam.width 2| ≤ 2)) →
        buf[y * (cam.width.toNat + 1) + x]? = some (some '#')) := by
  have hbuf := bufferSize_of_no_overflow cam hw hh hfit
  have hlen : ((cam.renderStores Real.sqrt Real.cos Real.sin Real.tan S fovX fovY).length
      : Int) = (cam.width + 1) * cam.height := by
    rw [renderStores_length]
    push_cast
    rw [Int.toNat_of_nonneg hw, Int.toNat_of_nonneg hh]
    ring
  refine ⟨cam.renderStores Real.sqrt Real.cos Real.sin Real.tan S fovX fovY, ?_, hlen,
    by rw [hlen, hbuf], ?_, ?_, ?_, ?_⟩
  · unfold Camera.render
    rw [if_pos (by rw [hlen, hbuf])]
  · intro y hy
    exact (renderStores_getElem_opt cam S fovX fovY 0 y (by omega)).2
  · intro x y hx hy hbx
    rw [(renderStores_getElem_opt cam S fovX fovY x y (by omega)).1 (by omega)]
    unfold Camera.renderCell
    rw [if_pos hbx]
  · intro x y hx hy hbx hby
    rw [(renderStores_getElem_opt cam S fovX fovY x y (by omega)).1 (by omega)]
    unfold Camera.renderCell
    rw [if_neg hbx, if_pos hby]
  · intro x y hx hy hbx hby hc
    rw [(renderStores_getElem_opt cam S fovX fovY x y (by omega)).1 (by omega)]
    unfold Camera.renderCell
    rw [if_neg hbx, if_neg hby, if_pos hc]

/-- C16 (witness): the camera `Camera(360, 100)` of `main` and the empty scene: the buffer
holds `361 * 100` characters. -/
theorem Camera.render_frame_and_crosshair_witness :
    (0 : Int) ≤ (Camera.new 360 100 : Camera ℝ).width ∧
    (0 : Int) ≤ (Camera.new 360 100 : Camera ℝ).height ∧
    ((Camera.new 360 100 : Camera ℝ).width + 1) * (Camera.new 360 100 : Camera ℝ).height
      ≤ 2147483647 ∧
    ∃ buf : List (Option Char),
      (Camera.new 360 100 : Camera ℝ).render Real.sqrt Real.cos Real.sin Real.tan
        (Collection.mk []) 1 1 = some buf ∧
      ((buf.length : Int) = (360 + 1) * 100) :=
  ⟨by decide, by decide, by decide,
    (Camera.render_frame_and_crosshair (Camera.new 360 100) (Collection.mk []) 1 1
      (by decide) (by decide) (by decide)).imp (fun _ h => ⟨h.1, h.2.1⟩)⟩

/-- C16 (counterexample): for `Camera(65535, 65537)` the product `65536 * 65537` does not
fit in an `int` and wraps to `65536`, the size of the buffer, while `render` executes
`4295032832` stores: it writes past `bufferSize`. -/
theorem Camera.render_overflows_buffer :
    (2 : Int) ≤ (Camera.new 65535 65537 : Camera ℝ).width ∧
    (2 : Int) ≤ (Camera.new 65535 65537 : Camera ℝ).height ∧
    (Camera.new 65535 65537 : Camera ℝ).bufferSize = 65536 ∧
    ((Camera.new 65535 65537 : Camera ℝ).renderStores Real.sqrt Real.cos Real.sin Real.tan
      (Collection.mk []) 1 1).length = 4295032832 ∧
    (Camera.new 65535 65537 : Camera ℝ).render Real.sqrt Real.cos Real.sin Real.tan
      (Collection.mk []) 1 1 = none := by
  have hb : (Camera.new 65535 65537 : Camera ℝ).bufferSize = 65536 := by
    simp only [Camera.bufferSize, Camera.new, wrapInt32]
    decide
  have hl : ((Camera.new 65535 65537 : Camera ℝ).renderStores Real.sqrt Real.cos Real.sin
      Real.tan (Collection.mk []) 1 1).length = 4295032832 := by
    rw [renderStores_length]
    simp only [Camera.new]
    decide
  refine ⟨by decide, by decide, hb, hl, ?_⟩
  unfold Camera.render
  rw [if_neg]
  rw [hl, hb]
  decide

/-- The NaN-tracking `normalizeOpt` returns the value of `normalize` at non-zero length. -/
theorem Vec3.normalizeOpt_of_len_ne_zero (v : Vec3 ℝ) (hv : v.len Real.sqrt ≠ 0) :
    v.normalizeOpt Real.sqrt = some (v.normalize Real.sqrt) := by
  unfold Vec3.normalizeOpt
  rw [if_neg hv]
  rfl

/-- A value returned by the NaN-tracking `normalizeOpt` is the value of `normalize`. -/
theorem Vec3.normalizeOpt_eq_some (v w : Vec3 ℝ) (h : v.normalizeOpt Real.sqrt = some w) :
    v.len Real.sqrt ≠ 0 ∧ w = v.normalize Real.sqrt := by
  unfold Vec3.normalizeOpt at h
  by_cases hv : v.len Real.sqrt = 0
  · rw [if_pos hv] at h
    cases h
  · rw [if_neg hv] at h
    refine ⟨hv, ?_⟩
    injection h with h
    exact h.symm

/-- C17 (as amended): `Vec3::normalize` has no failure path, it returns a vector for every
input.  For every vector whose length lies between `2^-500` and `2^500` (where the squares
neither overflow nor underflow in `double`: the sum `x*x + y*y + z*z` lies between
`2^-1000` and `2^1000`), in exact arithmetic, the vector it returns is not NaN, it is the
one the checked normalisation of the specification yields, it has length `1` and it is a
positive multiple of the input (same direction). -/
theorem Vec3.normalize_of_nonzero (v : Vec3 ℝ) (hlo : (1 / 2 : ℝ) ^ 500 ≤ v.len Real.sqrt)
    (hhi : v.len Real.sqrt ≤ 2 ^ 500) :
    ((1 / 2 : ℝ) ^ 1000 ≤ v.x * v.x + v.y * v.y + v.z * v.z ∧
      v.x * v.x + v.y * v.y + v.z * v.z ≤ 2 ^ 1000) ∧
    v.normalizeOpt Real.sqrt = some (v.normalize Real.sqrt) ∧
    Spec.normalizeChecked Real.sqrt v = Except.ok (v.normalize Real.sqrt) ∧
    (v.normalize Real.sqrt).len Real.sqrt = 1 ∧
    ∃ k : ℝ, 0 < k ∧ v.normalize Real.sqrt = v.scale k := by
  have hpos : 0 < v.len Real.sqrt := lt_of_lt_of_le (by positivity) hlo
  have hv : v.len Real.sqrt ≠ 0 := ne_of_gt hpos
  have hsq := Vec3.len_mul_self v
  have hrange : (1 / 2 : ℝ) ^ 1000 ≤ v.x * v.x + v.y * v.y + v.z * v.z ∧
      v.x * v.x + v.y * v.y + v.z * v.z ≤ 2 ^ 1000 := by
    rw [← hsq]
    have e1 : (1 / 2 : ℝ) ^ 1000 = (1 / 2 : ℝ) ^ 500 * (1 / 2 : ℝ) ^ 500 := by
      rw [← pow_add]
    have e2 : (2 : ℝ) ^ 1000 = (2 : ℝ) ^ 500 * (2 : ℝ) ^ 500 := by
      rw [← pow_add]
    rw [e1, e2]
    have hlo0 : (0 : ℝ) ≤ (1 / 2 : ℝ) ^ 500 := by positivity
    exact ⟨mul_le_mul hlo hlo hlo0 hpos.le, mul_le_mul hhi hhi hpos.le (by positivity)⟩
  refine ⟨hrange, Vec3.normalizeOpt_of_len_ne_zero v hv, ?_,
    Vec3.len_normalize_eq_one v hv, 1 / v.len Real.sqrt, by positivity, rfl⟩
  unfold Spec.normalizeChecked
  rw [if_neg hv]
  rfl

/-- C17 (witness): the vector `(0, 0, 2)`, of length `2`. -/
theorem Vec3.normalize_of_nonzero_witness :
    (1 / 2 : ℝ) ^ 500 ≤ (⟨0, 0, 2⟩ : Vec3 ℝ).len Real.sqrt ∧
    (⟨0, 0, 2⟩ : Vec3 ℝ).len Real.sqrt ≤ 2 ^ 500 ∧
    ((⟨0, 0, 2⟩ : Vec3 ℝ).normalize Real.sqrt).len Real.sqrt = 1 :=
  have hl : (⟨0, 0, 2⟩ : Vec3 ℝ).len Real.sqrt = 2 := by
    rw [Vec3.len_axis_z]; norm_num
  have hlo : (1 / 2 : ℝ) ^ 500 ≤ (⟨0, 0, 2⟩ : Vec3 ℝ).len Real.sqrt := by
    rw [hl]
    exact le_trans (pow_le_one₀ (by norm_num) (by norm_num)) (by norm_num)
  have hhi : (⟨0, 0, 2⟩ : Vec3 ℝ).len Real.sqrt ≤ 2 ^ 500 := by
    rw [hl]
    norm_num
  ⟨hlo, hhi, (Vec3.normalize_of_nonzero ⟨0, 0, 2⟩ hlo hhi).2.2.2.1⟩

/-- C17 (counterexample): on the zero vector, of length `0`, the specification demands the
failure `DivideByZero` and admits no returned vector, but `normalize` does not fail: it
returns a vector whose components are NaN. -/
theorem Vec3.normalize_zero_does_not_fail :
    (⟨0, 0, 0⟩ : Vec3 ℝ).len Real.sqrt = 0 ∧
    Spec.normalizeChecked Real.sqrt (⟨0, 0, 0⟩ : Vec3 ℝ)
      = Except.error Spec.MathError.DivideByZero ∧
    (∀ w : Vec3 ℝ, Spec.normalizeChecked Real.sqrt (⟨0, 0, 0⟩ : Vec3 ℝ) ≠ Except.ok w) ∧
    (⟨0, 0, 0⟩ : Vec3 ℝ).normalizeOpt Real.sqrt = none := by
  have h0 : (⟨0, 0, 0⟩ : Vec3 ℝ).len Real.sqrt = 0 := by
    rw [Vec3.len_axis_z]; norm_num
  have hs : Spec.normalizeChecked Real.sqrt (⟨0, 0, 0⟩ : Vec3 ℝ)
      = Except.error Spec.MathError.DivideByZero := by
    unfold Spec.normalizeChecked
    rw [if_pos h0]
  refine ⟨h0, hs, ?_, ?_⟩
  · intro w h
    rw [hs] at h
    cases h
  · unfold Vec3.normalizeOpt
    rw [if_pos h0]

/-- The unsigned distance `getDistReal` of a shape changes by at most the Euclidean distance
between the points. -/
theorem Shape.getDistReal_lipschitz (s : Shape ℝ) (p q : Vec3 ℝ) :
    |s.getDistReal Real.sqrt p - s.getDistReal Real.sqrt q| ≤ (p - q).len Real.sqrt := by
  unfold Shape.getDistReal
  cases s.type with
  | Circle =>
    dsimp only
    have h1 := Vec3.len_sub_le p q s.position
    have h2 := Vec3.len_sub_le q p s.position
    rw [Vec3.len_sub_comm q p] at h2
    rw [abs_le]
    constructor <;> linarith
  | Rect =>
    dsimp only
    have lx := Vec3.abs_x_le_len (p - q)
    have ly := Vec3.abs_y_le_len (p - q)
    have lz := Vec3.abs_z_le_len (p - q)
    simp only [Vec3.sub_x, Vec3.sub_y, Vec3.sub_z] at lx ly lz
    have ax : |(|s.position.x - p.x| - s.w * 0.5) - (|s.position.x - q.x| - s.w * 0.5)|
        ≤ (p - q).len Real.sqrt := by
      have h := abs_abs_sub_abs_le_abs_sub (s.position.x - p.x) (s.position.x - q.x)
      have e : s.position.x - p.x - (s.position.x - q.x) = -(p.x - q.x) := by ring
      rw [e, abs_neg] at h
      have e2 : (|s.position.x - p.x| - s.w * 0.5) - (|s.position.x - q.x| - s.w * 0.5)
          = |s.position.x - p.x| - |s.position.x - q.x| := by ring
      rw [e2]
      exact le_trans h lx
    have ay : |(|s.position.y - p.y| - s.h * 0.5) - (|s.position.y - q.y| - s.h * 0.5)|
        ≤ (p - q).len Real.sqrt := by
      have h := abs_abs_sub_abs_le_abs_sub (s.position.y - p.y) (s.position.y - q.y)
      have e : s.position.y - p.y - (s.position.y - q.y) = -(p.y - q.y) := by ring
      rw [e, abs_neg] at h
      have e2 : (|s.position.y - p.y| - s.h * 0.5) - (|s.position.y - q.y| - s.h * 0.5)
          = |s.position.y - p.y| - |s.position.y - q.y| := by ring
      rw [e2]
      exact le_trans h ly
    have az : |(|s.position.z - p.z| - s.d * 0.5) - (|s.position.z - q.z| - s.d * 0.5)|
        ≤ (p - q).len Real.sqrt := by
      have h := abs_abs_sub_abs_le_abs_sub (s.position.z - p.z) (s.position.z - q.z)
      have e : s.position.z - p.z - (s.position.z - q.z) = -(p.z - q.z) := by ring
      rw [e, abs_neg] at h
      have e2 : (|s.position.z - p.z| - s.d * 0.5) - (|s.position.z - q.z| - s.d * 0.5)
          = |s.position.z - p.z| - |s.position.z - q.z| := by ring
      rw [e2]
      exact le_trans h lz
    exact le_trans (abs_max_sub_max_le_max _ _ _ _)
      (max_le ax (le_trans (abs_max_sub_max_le_max _ _ _ _) (max_le ay az)))

/-- The signed distance `getDist` of a shape, inverted or not, changes by at most the
Euclidean distance between the points. -/
theorem Shape.getDist_lipschitz (s : Shape ℝ) (p q : Vec3 ℝ) :
    |s.getDist Real.sqrt p - s.getDist Real.sqrt q| ≤ (p - q).len Real.sqrt := by
  unfold Shape.getDist
  split_ifs
  · have e : -s.getDistReal Real.sqrt p - -s.getDistReal Real.sqrt q
        = -(s.getDistReal Real.sqrt p - s.getDistReal Real.sqrt q) := by ring
    rw [e, abs_neg]
    exact Shape.getDistReal_lipschitz s p q
  · exact Shape.getDistReal_lipschitz s p q

/-- The fold of `Collection::getDist`, run at two points from start values that differ by
at most `len(p - q)`, ends in values that differ by at most `len(p - q)`. -/
theorem foldl_min_lipschitz (l : List (Shape ℝ)) (p q : Vec3 ℝ) (a b : ℝ)
    (hab : |a - b| ≤ (p - q).len Real.sqrt) :
    |l.foldl (fun dist shape => min dist (shape.getDist Real.sqrt p)) a
      - l.foldl (fun dist shape => min dist (shape.getDist Real.sqrt q)) b|
      ≤ (p - q).len Real.sqrt := by
  induction l generalizing a b with
  | nil => simpa using hab
  | cons s l ih =>
    simp only [List.foldl_cons]
    apply ih
    exact le_trans (abs_min_sub_min_le_max _ _ _ _) (max_le hab (Shape.getDist_lipschitz s p q))

/-- The scene distance changes by at most the Euclidean distance between the points. -/
theorem scene_getDist_lipschitz (S : Collection ℝ) (p q : Vec3 ℝ) :
    |S.getDist Real.sqrt p - S.getDist Real.sqrt q| ≤ (p - q).len Real.sqrt := by
  unfold Collection.getDist
  apply foldl_min_lipschitz
  simp [Vec3.len_nonneg]

/-- C18: for every scene of spheres and boxes, inverted or not, and all points `p`, `q`,
`|S.getDist(p) - S.getDist(q)| <= |p - q|`; hence for every point `p`, every unit direction
`u` and every `t` with `0 <= t <= S.getDist(p)`, the scene distance after advancing by `t`
satisfies `S.getDist(p + u*t) >= S.getDist(p) - t >= 0`: the step of `march` does not pass
through a surface. -/
theorem Collection.getDist_safe_step (S : Collection ℝ) :
    (∀ p q : Vec3 ℝ,
      |S.getDist Real.sqrt p - S.getDist Real.sqrt q| ≤ (p - q).len Real.sqrt) ∧
    (∀ (p u : Vec3 ℝ) (t : ℝ), u.len Real.sqrt = 1 → 0 ≤ t → t ≤ S.getDist Real.sqrt p →
      S.getDist Real.sqrt p - t ≤ S.getDist Real.sqrt (p + u.scale t) ∧
      0 ≤ S.getDist Real.sqrt p - t) := by
  refine ⟨scene_getDist_lipschitz S, ?_⟩
  intro p u t hu ht0 htd
  refine ⟨?_, by linarith⟩
  have h := scene_getDist_lipschitz S p (p + u.scale t)
  have e : p - (p + u.scale t) = -(u.scale t) := by
    ext <;> simp
  rw [e, Vec3.len_neg, Vec3.len_scale, hu, one_mul, abs_of_nonneg ht0] at h
  linarith [(abs_le.mp h).2]

/-- C18 (witness): the box `rect((0,0,10), 2, 2, 2)` seen from the origin, a step of
length `1` along `(0, 0, 1)`. -/
theorem Collection.getDist_safe_step_witness :
    (⟨0, 0, 1⟩ : Vec3 ℝ).len Real.sqrt = 1 ∧ (0 : ℝ) ≤ 1 ∧
    (1 : ℝ) ≤ (Collection.mk [Shape.rect (⟨0, 0, 10⟩ : Vec3 ℝ) 2 2 2]).getDist Real.sqrt
      ⟨0, 0, 0⟩ ∧
    (Collection.mk [Shape.rect (⟨0, 0, 10⟩ : Vec3 ℝ) 2 2 2]).getDist Real.sqrt ⟨0, 0, 0⟩ - 1
      ≤ (Collection.mk [Shape.rect (⟨0, 0, 10⟩ : Vec3 ℝ) 2 2 2]).getDist Real.sqrt
        ((⟨0, 0, 0⟩ : Vec3 ℝ) + (⟨0, 0, 1⟩ : Vec3 ℝ).scale 1) :=
  have hu : (⟨0, 0, 1⟩ : Vec3 ℝ).len Real.sqrt = 1 := by
    rw [Vec3.len_axis_z]; norm_num
  have hd : (1 : ℝ) ≤ (Collection.mk [Shape.rect (⟨0, 0, 10⟩ : Vec3 ℝ) 2 2 2]).getDist
      Real.sqrt ⟨0, 0, 0⟩ := by
    norm_num [Collection.getDist, Shape.rect, Shape.getDist, Shape.getDistReal]
  ⟨hu, by norm_num, hd,
    ((Collection.getDist_safe_step (Collection.mk [Shape.rect (⟨0, 0, 10⟩ : Vec3 ℝ) 2 2 2])).2
      ⟨0, 0, 0⟩ ⟨0, 0, 1⟩ 1 hu (by norm_num) hd).1⟩


/-- C19: for every choice of the camera angles and every direction `v`, the three
sequential rotations of `Camera::render` preserve the Euclidean length of `v`; so for
every camera and pixel the ray direction computed by `render` is a unit vector. -/
theorem Camera.rotation_preserves_length :
    (∀ (cam : Camera ℝ) (v : Vec3 ℝ),
      (cam.rotate Real.cos Real.sin v).len Real.sqrt = v.len Real.sqrt) ∧
    (∀ (cam : Camera ℝ) (fovX fovY : ℝ) (x y : Int),
      (cam.rayDir Real.sqrt Real.cos Real.sin Real.tan fovX fovY x y).len Real.sqrt = 1) := by
  have hrot : ∀ (cam : Camera ℝ) (v : Vec3 ℝ),
      (cam.rotate Real.cos Real.sin v).len Real.sqrt = v.len Real.sqrt := by
    intro cam v
    unfold Vec3.len Camera.rotate
    rw [rotateDir_sq _ _ _ _ _ _ (cos_sin_sq _) (cos_sin_sq _) (cos_sin_sq _) v]
  refine ⟨hrot, ?_⟩
  intro cam fovX fovY x y
  unfold Camera.rayDir
  dsimp only
  rw [hrot]
  apply Vec3.len_normalize_eq_one
  intro h0
  have hz := Vec3.abs_z_le_len (⟨((x : ℝ) / ((cam.width - 1 : Int) : ℝ) - 0.5)
      * Real.tan (fovX / 2), ((y : ℝ) / ((cam.height - 1 : Int) : ℝ) - 0.5)
      * Real.tan (fovY / 2), 1⟩ : Vec3 ℝ)
  rw [h0] at hz
  norm_num at hz


/-- The angles computed by `lookAt` from `delta = (dx, dy, dz) ≠ 0`, with `atan2(y, x)` the
argument of `x + iy`: the rotated forward direction has components `-dx/R`, `-dy/R`,
`-dz/R`, where `R` is the length of `delta`. -/
theorem lookAt_angles_forward (dx dy dz : ℝ) (hne : ¬ (dx = 0 ∧ dy = 0 ∧ dz = 0)) :
    Real.cos (Complex.arg ⟨-(dx * Real.sin (-Complex.arg ⟨-dz, dx⟩)
        + dz * Real.cos (-Complex.arg ⟨-dz, dx⟩)), -dy⟩)
      * Real.sin (Complex.arg ⟨-dz, dx⟩) = dx / Real.sqrt (dx * dx + dy * dy + dz * dz) ∧
    Real.sin (Complex.arg ⟨-(dx * Real.sin (-Complex.arg ⟨-dz, dx⟩)
        + dz * Real.cos (-Complex.arg ⟨-dz, dx⟩)), -dy⟩)
      = -dy / Real.sqrt (dx * dx + dy * dy + dz * dz) ∧
    Real.cos (Complex.arg ⟨-(dx * Real.sin (-Complex.arg ⟨-dz, dx⟩)
        + dz * Real.cos (-Complex.arg ⟨-dz, dx⟩)), -dy⟩)
      * Real.cos (Complex.arg ⟨-dz, dx⟩) = -dz / Real.sqrt (dx * dx + dy * dy + dz * dz) := by
  have hr0 : 0 ≤ dz * dz + dx * dx := by nlinarith [mul_self_nonneg dx, mul_self_nonneg dz]
  have habs1 : Complex.abs ⟨-dz, dx⟩ = Real.sqrt (dz * dz + dx * dx) := by
    rw [Complex.abs_apply, Complex.normSq_mk]
    congr 1
    ring
  have hrr : Real.sqrt (dz * dz + dx * dx) * Real.sqrt (dz * dz + dx * dx)
      = dz * dz + dx * dx := Real.mul_self_sqrt hr0
  have hrn : 0 ≤ Real.sqrt (dz * dz + dx * dx) := Real.sqrt_nonneg _
  have hsin1 : Real.sin (Complex.arg ⟨-dz, dx⟩) = dx / Real.sqrt (dz * dz + dx * dx) := by
    rw [Complex.sin_arg, habs1]
  -- the value `nz` is minus the horizontal length
  have hnz : dx * Real.sin (-Complex.arg ⟨-dz, dx⟩) + dz * Real.cos (-Complex.arg ⟨-dz, dx⟩)
      = -Real.sqrt (dz * dz + dx * dx) := by
    rw [Real.sin_neg, Real.cos_neg, hsin1]
    by_cases hr : Real.sqrt (dz * dz + dx * dx) = 0
    · have hsum : dz * dz + dx * dx = 0 := by rw [← hrr, hr]; ring
      have hdx : dx = 0 := by nlinarith [mul_self_nonneg dx, mul_self_nonneg dz]
      have hdz : dz = 0 := by nlinarith [mul_self_nonneg dx, mul_self_nonneg dz]
      rw [hr, hdx, hdz]
      simp
    · have hz1 : (⟨-dz, dx⟩ : ℂ) ≠ 0 := by
        intro h
        apply hr
        rw [← habs1, h]
        simp
      rw [Complex.cos_arg hz1, habs1]
      generalize Real.sqrt (dz * dz + dx * dx) = r at hrr hr
      field_simp
      linear_combination r * hrr
  rw [hnz, neg_neg]
  have hR0 : 0 ≤ dx * dx + dy * dy + dz * dz := by
    nlinarith [mul_self_nonneg dx, mul_self_nonneg dy, mul_self_nonneg dz]
  have hRpos : 0 < dx * dx + dy * dy + dz * dz := by
    rcases lt_or_eq_of_le hR0 with h | h
    · exact h
    · exfalso
      apply hne
      refine ⟨?_, ?_, ?_⟩ <;>
        nlinarith [mul_self_nonneg dx, mul_self_nonneg dy, mul_self_nonneg dz]
  have hRs : 0 < Real.sqrt (dx * dx + dy * dy + dz * dz) := Real.sqrt_pos.mpr hRpos
  have habs2 : Complex.abs ⟨Real.sqrt (dz * dz + dx * dx), -dy⟩
      = Real.sqrt (dx * dx + dy * dy + dz * dz) := by
    rw [Complex.abs_apply, Complex.normSq_mk, hrr]
    congr 1
    ring
  have hz2 : (⟨Real.sqrt (dz * dz + dx * dx), -dy⟩ : ℂ) ≠ 0 := by
    intro h
    have : Complex.abs ⟨Real.sqrt (dz * dz + dx * dx), -dy⟩ = 0 := by rw [h]; simp
    rw [habs2] at this
    linarith
  have hcos2 : Real.cos (Complex.arg ⟨Real.sqrt (dz * dz + dx * dx), -dy⟩)
      = Real.sqrt (dz * dz + dx * dx) / Real.sqrt (dx * dx + dy * dy + dz * dz) := by
    rw [Complex.cos_arg hz2, habs2]
  have hsin2 : Real.sin (Complex.arg ⟨Real.sqrt (dz * dz + dx * dx), -dy⟩)
      = -dy / Real.sqrt (dx * dx + dy * dy + dz * dz) := by
    rw [Complex.sin_arg, habs2]
  rw [hcos2, hsin2, hsin1]
  by_cases hr : Real.sqrt (dz * dz + dx * dx) = 0
  · have hsum : dz * dz + dx * dx = 0 := by rw [← hrr, hr]; ring
    have hdx : dx = 0 := by nlinarith [mul_self_nonneg dx, mul_self_nonneg dz]
    have hdz : dz = 0 := by nlinarith [mul_self_nonneg dx, mul_self_nonneg dz]
    rw [hr, hdx, hdz]
    simp
  · have hz1 : (⟨-dz, dx⟩ : ℂ) ≠ 0 := by
      intro h
      apply hr
      rw [← habs1, h]
      simp
    rw [Complex.cos_arg hz1, habs1]
    refine ⟨?_, rfl, ?_⟩
    · field_simp
      ring
    · field_simp
      ring


/-- C20: for every camera position, every target point different from it and every roll
angle, after `Camera::lookAt(target)` the device-space direction `(0, 0, 1)` rotated by the
camera's angles as in `Camera::render` equals `normalize(target - position)`.  The library
function `atan2(y, x)` is the argument of the complex number `x + iy`. -/
theorem Camera.lookAt_forward_points_at_target (cam : Camera ℝ) (target : Vec3 ℝ)
    (hne : target ≠ cam.position) :
    (cam.lookAt Real.cos Real.sin (fun y x => Complex.arg ⟨x, y⟩) target).rotate
      Real.cos Real.sin ⟨0, 0, 1⟩ = (target - cam.position).normalize Real.sqrt := by
  have hd : ¬ (cam.position.x - target.x = 0 ∧ cam.position.y - target.y = 0 ∧
      cam.position.z - target.z = 0) := by
    rintro ⟨h1, h2, h3⟩
    apply hne
    ext
    · linarith
    · linarith
    · linarith
  obtain ⟨k1, k2, k3⟩ := lookAt_angles_forward (cam.position.x - target.x)
    (cam.position.y - target.y) (cam.position.z - target.z) hd
  have hR : (target - cam.position).len Real.sqrt =
      Real.sqrt ((cam.position.x - target.x) * (cam.position.x - target.x)
        + (cam.position.y - target.y) * (cam.position.y - target.y)
        + (cam.position.z - target.z) * (cam.position.z - target.z)) := by
    unfold Vec3.len
    congr 1
    simp only [Vec3.sub_x, Vec3.sub_y, Vec3.sub_z]
    ring
  unfold Vec3.normalize
  rw [hR]
  simp only [Camera.lookAt, Camera.rotate, Camera.rotateDir, Vec3.sub_x, Vec3.sub_y,
    Vec3.sub_z, neg_neg, Real.cos_neg, Real.sin_neg] at k1 k2 k3 ⊢
  ext
  · simp only [zero_mul, sub_zero, add_zero, one_mul, zero_sub, zero_add]
    rw [k1]
    ring
  · simp only [zero_mul, sub_zero, add_zero, one_mul, zero_sub, zero_add]
    rw [neg_neg, k2]
    ring
  · simp only [zero_mul, sub_zero, add_zero, one_mul, zero_sub, zero_add]
    rw [k3]
    ring

/-- C20 (witness): the camera of `main` at `(-5, -4, -5)` looking at the origin. -/
theorem Camera.lookAt_forward_points_at_target_witness :
    (⟨0, 0, 0⟩ : Vec3 ℝ) ≠
      ({ (Camera.new 360 100 : Camera ℝ) with position := ⟨-5, -4, -5⟩ } : Camera ℝ).position ∧
    (({ (Camera.new 360 100 : Camera ℝ) with position := ⟨-5, -4, -5⟩ } : Camera ℝ).lookAt
      Real.cos Real.sin (fun y x => Complex.arg ⟨x, y⟩) ⟨0, 0, 0⟩).rotate
      Real.cos Real.sin ⟨0, 0, 1⟩ =
    ((⟨0, 0, 0⟩ : Vec3 ℝ)
      - ({ (Camera.new 360 100 : Camera ℝ) with position := ⟨-5, -4, -5⟩ } :
        Camera ℝ).position).normalize Real.sqrt :=
  have h : (⟨0, 0, 0⟩ : Vec3 ℝ) ≠
      ({ (Camera.new 360 100 : Camera ℝ) with position := ⟨-5, -4, -5⟩ } :
        Camera ℝ).position := by
    intro h
    have := congrArg Vec3.x h
    norm_num at this
  ⟨h, Camera.lookAt_forward_points_at_target _ _ h⟩

/-! ### The range of the brightness, with NaN tracked -/
/-- A normal returned by the NaN-tracking `Shape.getNormalOpt` is that of `getNormal`. -/
theorem Shape.getNormalOpt_eq_some (s : Shape ℝ) (p w : Vec3 ℝ)
    (h : s.getNormalOpt Real.sqrt p = some w) : w = s.getNormal Real.sqrt p := by
  unfold Shape.getNormalOpt Shape.getNormalRealOpt at h
  unfold Shape.getNormal Shape.getNormalReal
  cases hty : s.type <;> rw [hty] at h <;> by_cases hr : s.reversed = true <;>
    simp only [hr, if_true, if_false, Bool.false_eq_true] at h ⊢
  · cases hn : (p - s.position).normalizeOpt Real.sqrt with
    | none => rw [hn] at h; cases h
    | some m =>
      rw [hn] at h
      have hm := (Vec3.normalizeOpt_eq_some _ _ hn).2
      simp only [Option.map_some'] at h
      injection h with h
      rw [← h, hm]
  · exact (Vec3.normalizeOpt_eq_some _ _ h).2
  · simp only [Option.map_some'] at h
    injection h with h
    rw [← h]
    unfold Shape.getNormalReal
    rw [hty]
  · injection h with h
    rw [← h]
    unfold Shape.getNormalReal
    rw [hty]

/-- The loop of `Collection::getNormal` with NaN tracked runs in step with the loop
without: same distance, and the same normal whenever the tracked one is not NaN. -/
theorem foldl_getNormalStepOpt_sim (p : Vec3 ℝ) (l : List (Shape ℝ))
    (o : Option (Vec3 ℝ)) (n : Vec3 ℝ) (d : ℝ) (hon : ∀ m, o = some m → m = n) :
    (l.foldl (Collection.getNormalStepOpt Real.sqrt p) (o, d)).2
        = (l.foldl (Collection.getNormalStep Real.sqrt p) (n, d)).2 ∧
      ∀ m, (l.foldl (Collection.getNormalStepOpt Real.sqrt p) (o, d)).1 = some m →
        m = (l.foldl (Collection.getNormalStep Real.sqrt p) (n, d)).1 := by
  induction l generalizing o n d with
  | nil => exact ⟨rfl, hon⟩
  | cons a l ih =>
    simp only [List.foldl_cons]
    by_cases ha : a.getDist Real.sqrt p < d
    · have e1 : Collection.getNormalStepOpt Real.sqrt p (o, d) a
          = (a.getNormalOpt Real.sqrt p, a.getDist Real.sqrt p) := by
        simp [Collection.getNormalStepOpt, ha]
      have e2 : Collection.getNormalStep Real.sqrt p (n, d) a
          = (a.getNormal Real.sqrt p, a.getDist Real.sqrt p) := by
        simp [Collection.getNormalStep, ha]
      rw [e1, e2]
      exact ih _ _ _ (fun m hm => Shape.getNormalOpt_eq_some a p m hm)
    · have e1 : Collection.getNormalStepOpt Real.sqrt p (o, d) a = (o, d) := by
        simp [Collection.getNormalStepOpt, ha]
      have e2 : Collection.getNormalStep Real.sqrt p (n, d) a = (n, d) := by
        simp [Collection.getNormalStep, ha]
      rw [e1, e2]
      exact ih _ _ _ hon

/-- A normal returned by the NaN-tracking `Collection.getNormalOpt` is that of
`getNormal`. -/
theorem Collection.sceneNormalOpt_eq_some (S : Collection ℝ) (p m : Vec3 ℝ)
    (h : S.getNormalOpt Real.sqrt p = some m) : m = S.getNormal Real.sqrt p :=
  (foldl_getNormalStepOpt_sim p S.shapes (some Vec3.zero) Vec3.zero 1000000
    (fun _ hm => (Option.some.inj hm).symm)).2 m h

/-- With `fogDist < maxViewDist`, a value returned by the NaN-tracking `getLightOpt` is the
value of `getLight`. -/
theorem getLightOpt_eq_some (cam : Camera ℝ) (hfog : cam.fogDist < cam.maxViewDist)
    (S : Collection ℝ) (p : Vec3 ℝ) (v : ℝ) (h : cam.getLightOpt Real.sqrt p S = some v) :
    v = cam.getLight Real.sqrt p S := by
  unfold Camera.getLightOpt at h
  cases hN : S.getNormalOpt Real.sqrt p with
  | none =>
    rw [hN] at h
    cases h
  | some n =>
    rw [hN] at h
    have hn := Collection.sceneNormalOpt_eq_some S p n hN
    have hne : ¬ (cam.maxViewDist - cam.fogDist = 0) := by
      intro h0; linarith
    by_cases hd : (cam.light - p).len Real.sqrt = 0
    · simp only [hd, if_true] at h
      cases h
    · simp only [hd, if_false, hne, and_false] at h
      injection h with h
      rw [← h, hn]
      rfl

/-- A number returned by the loop of `march` with NaN tracked is the value of the loop
`marchLoop`, when the values on a hit agree wherever the tracked one is a number. -/
theorem marchLoopOpt_eq_some (onHit : Vec3 ℝ → Option ℝ) (f : Vec3 ℝ → ℝ)
    (hrel : ∀ q v, onHit q = some v → v = f q) (dir : Vec3 ℝ) (S : Collection ℝ)
    (maxDist : ℝ) (n : Nat) (pos : Vec3 ℝ) (sumDist v : ℝ)
    (h : Camera.marchLoopOpt Real.sqrt onHit dir S maxDist n pos sumDist = some v) :
    v = Camera.marchLoop Real.sqrt f dir S maxDist n pos sumDist := by
  induction n generalizing pos sumDist with
  | zero =>
    unfold Camera.marchLoopOpt at h
    injection h with h
    rw [← h]
    rfl
  | succ n ih =>
    unfold Camera.marchLoopOpt at h
    unfold Camera.marchLoop
    dsimp only at h ⊢
    split_ifs at h ⊢ with c1 c2 c3
    · injection h with h
      exact h.symm
    · injection h with h
      exact h.symm
    · exact hrel pos v h
    · exact ih _ _ h

/-- With `fogDist < maxViewDist`, a number returned by the NaN-tracking `marchOpt` is the
value of `march`: the two descriptions of the source agree wherever no NaN arises. -/
theorem marchOpt_eq_some (cam : Camera ℝ) (hfog : cam.fogDist < cam.maxViewDist)
    (S : Collection ℝ) (origin dir : Vec3 ℝ) (maxDist : ℝ) (light : Bool) (v : ℝ)
    (h : cam.marchOpt Real.sqrt origin dir S maxDist light = some v) :
    v = cam.march Real.sqrt origin dir S maxDist light := by
  unfold Camera.marchOpt at h
  unfold Camera.march
  apply marchLoopOpt_eq_some _ _ _ dir S maxDist 100 origin 0 v h
  intro q w hq
  cases light
  · simp only [Bool.false_eq_true, if_false] at hq ⊢
    injection hq with hq
    exact hq.symm
  · simp only [if_true] at hq ⊢
    exact getLightOpt_eq_some cam hfog S q w hq

end RayMarching
